import Mathlib

/-!
Verification of the metadata-store schema layer of the zenml repository.

The development shallowly embeds the four schema modules under
`src/zenml/zen_stores/schemas/` (project_schemas.py, component_schemas.py,
stack_schemas.py, user_management_schemas.py) together with the stdlib
encoding pipeline they invoke (`json.dumps`/`json.loads`, `base64.b64encode`/
`base64.b64decode`, UTF-8 `str.encode`/`bytes.decode`).

Machine-level conventions: Python `bytes` values are `List Nat` with each
entry below 256; Python `str` values used by the JSON machinery are
`List Char`; UUIDs and datetimes are opaque `Nat` tokens (`datetime.now()`
becomes an explicit `now` argument, since the embedding is pure).
-/

namespace ZenML

/-! ### JSON values

`JValue` is the universe of JSON-compatible Python values handled by
`json.dumps`/`json.loads` in component_schemas.py: `None`, `bool`, `int`,
`str`, `list`, and string-keyed `dict`.  Python `float` members are outside
the embedding (floating point is not modelled); `jnum` carries the exact
integers.  A `jobj` holds the dict's key/value items in insertion order. -/

inductive JValue where
  | jnull
  | jbool (b : Bool)
  | jnum (n : Int)
  | jstr (s : List Char)
  | jarr (items : List JValue)
  | jobj (entries : List (List Char × JValue))

mutual
/-- Keys of every object inside the value are pairwise distinct, which is
exactly the constraint a Python `dict` imposes; values outside this set
cannot arise as `json.dumps` input in the source. -/
def JValue.dictLike : JValue → Bool
  | .jnull => true
  | .jbool _ => true
  | .jnum _ => true
  | .jstr _ => true
  | .jarr items => dictLikeItems items
  | .jobj entries => decide ((entries.map (·.1)).Nodup) && dictLikeEntries entries

/-- Every member of the list is `dictLike`. -/
def dictLikeItems : List JValue → Bool
  | [] => true
  | x :: xs => x.dictLike && dictLikeItems xs

/-- Every value of the entry list is `dictLike`. -/
def dictLikeEntries : List (List Char × JValue) → Bool
  | [] => true
  | e :: es => e.2.dictLike && dictLikeEntries es
end

/-! ### json.dumps

Faithful to `json.dumps` at its defaults: `ensure_ascii=True` (every
non-ASCII character leaves as a `\uXXXX` escape, astral characters as a
surrogate pair), item separator `", "`, key separator `": "`. -/

/-- Decimal digit character. -/
def decChar (d : Nat) : Char := Char.ofNat (48 + d)

/-- Lowercase hexadecimal digit character, as `"%04x" % n` produces. -/
def hexChar (d : Nat) : Char := if d < 10 then Char.ofNat (48 + d) else Char.ofNat (87 + d)

/-- The four hex digits of `n % 0x10000`, most significant first. -/
def hex4Chars (n : Nat) : List Char :=
  [hexChar (n / 4096 % 16), hexChar (n / 256 % 16), hexChar (n / 16 % 16), hexChar (n % 16)]

/-- One character of a JSON string, escaped the way
`json.encoder.py_encode_basestring_ascii` escapes it. -/
def escapeChar (c : Char) : List Char :=
  if c = '\\' then ['\\', '\\']
  else if c = '"' then ['\\', '"']
  else if c.toNat = 8 then ['\\', 'b']
  else if c.toNat = 9 then ['\\', 't']
  else if c.toNat = 10 then ['\\', 'n']
  else if c.toNat = 12 then ['\\', 'f']
  else if c.toNat = 13 then ['\\', 'r']
  else if 32 ≤ c.toNat ∧ c.toNat ≤ 126 then [c]
  else if c.toNat < 65536 then '\\' :: 'u' :: hex4Chars c.toNat
  else
    ('\\' :: 'u' :: hex4Chars (55296 + (c.toNat - 65536) / 1024))
      ++ ('\\' :: 'u' :: hex4Chars (56320 + (c.toNat - 65536) % 1024))

/-- The escaped body of a string followed by its closing quote. -/
def escBody : List Char → List Char
  | [] => ['"']
  | c :: cs => escapeChar c ++ escBody cs

/-- A JSON string literal: opening quote, escaped body, closing quote. -/
def quoteStr (s : List Char) : List Char := '"' :: escBody s

/-- Decimal digit characters of `n`, most significant first. -/
def decDigits (n : Nat) : List Char :=
  if n < 10 then [decChar n] else decDigits (n / 10) ++ [decChar (n % 10)]
decreasing_by exact Nat.div_lt_self (by omega) (by omega)

/-- `repr` of a Python int: optional minus sign then decimal digits. -/
def intChars : Int → List Char
  | .ofNat n => decDigits n
  | .negSucc m => '-' :: decDigits (m + 1)

mutual
/-- `json.dumps` (defaults) as a character list. -/
def dumpVal : JValue → List Char
  | .jnull => ['n', 'u', 'l', 'l']
  | .jbool true => ['t', 'r', 'u', 'e']
  | .jbool false => ['f', 'a', 'l', 's', 'e']
  | .jnum n => intChars n
  | .jstr s => quoteStr s
  | .jarr [] => ['[', ']']
  | .jarr (x :: xs) => '[' :: (dumpVal x ++ dumpMoreItems xs ++ [']'])
  | .jobj [] => ['{', '}']
  | .jobj (e :: es) =>
      '{' :: (quoteStr e.1 ++ ':' :: ' ' :: dumpVal e.2 ++ dumpMoreEntries es ++ ['}'])

/-- Second and later array items, each preceded by the `", "` separator. -/
def dumpMoreItems : List JValue → List Char
  | [] => []
  | x :: xs => ',' :: ' ' :: dumpVal x ++ dumpMoreItems xs

/-- Second and later object entries, each preceded by `", "`, keys joined
with `": "`. -/
def dumpMoreEntries : List (List Char × JValue) → List Char
  | [] => []
  | e :: es => ',' :: ' ' :: quoteStr e.1 ++ ':' :: ' ' :: dumpVal e.2 ++ dumpMoreEntries es
end

/-! ### json.loads

A recursive-descent scanner over the character list, following the CPython
pure-Python scanner (`json.scanner.py_make_scanner` plus `json.decoder`):
whitespace (space, tab, newline, carriage return) is skipped around tokens,
strings understand the two-character escapes and `\uXXXX` (surrogate pairs
recombined; a lone surrogate cannot be represented by `Char`, so the
embedding rejects it), numbers follow the `0 | [1-9][0-9]*` integer grammar
with optional leading minus.  A fraction or exponent would produce a Python
float, which is outside the embedding, so such input is rejected rather than
misread as an integer.  Recursion in `parseVal` is fueled; callers pass
`length + 1`, which `loads_dumps` below shows is always enough. -/

/-- JSON whitespace, as the CPython scanner's `_ws` set. -/
def isJsonWs (c : Char) : Bool := c = ' ' || c = '\t' || c = '\n' || c = '\r'

/-- Drop leading JSON whitespace. -/
def dropWs : List Char → List Char
  | [] => []
  | c :: cs => if isJsonWs c then dropWs cs else c :: cs

/-- Numeric value of a hex digit character, either case. -/
def hexCharVal (c : Char) : Option Nat :=
  if 48 ≤ c.toNat ∧ c.toNat ≤ 57 then some (c.toNat - 48)
  else if 97 ≤ c.toNat ∧ c.toNat ≤ 102 then some (c.toNat - 87)
  else if 65 ≤ c.toNat ∧ c.toNat ≤ 70 then some (c.toNat - 55)
  else none

/-- Value of a four-hex-digit escape. -/
def hex4Val (a b c d : Char) : Option Nat :=
  match hexCharVal a, hexCharVal b, hexCharVal c, hexCharVal d with
  | some va, some vb, some vc, some vd => some (((va * 16 + vb) * 16 + vc) * 16 + vd)
  | _, _, _, _ => none

/-- The two-character escapes of the JSON grammar. -/
def unescapeChar (e : Char) : Option Char :=
  if e = '"' then some '"'
  else if e = '\\' then some '\\'
  else if e = '/' then some '/'
  else if e = 'b' then some (Char.ofNat 8)
  else if e = 'f' then some (Char.ofNat 12)
  else if e = 'n' then some (Char.ofNat 10)
  else if e = 'r' then some (Char.ofNat 13)
  else if e = 't' then some (Char.ofNat 9)
  else none

/-- Scan the four hex digits after a `\u`, recombining a surrogate pair
with a following `\uXXXX` low half the way the CPython decoder does.  A
lone surrogate (which Python would keep as a surrogate code unit) has no
`Char` representation and is rejected. -/
def scanU : List Char → Option (Char × List Char)
  | a :: b :: c :: d :: rest =>
    (match hex4Val a b c d with
    | none => none
    | some n =>
      if 55296 ≤ n ∧ n ≤ 56319 then
        match rest with
        | e1 :: e2 :: a2 :: b2 :: c2 :: d2 :: rest2 =>
          if e1 = '\\' ∧ e2 = 'u' then
            match hex4Val a2 b2 c2 d2 with
            | none => none
            | some m =>
              if 56320 ≤ m ∧ m ≤ 57343 then
                some (Char.ofNat (65536 + (n - 55296) * 1024 + (m - 56320)), rest2)
              else none
          else none
        | _ => none
      else if 56320 ≤ n ∧ n ≤ 57343 then none
      else some (Char.ofNat n, rest))
  | _ => none

/-- Scan one escape sequence, after the backslash. -/
def scanEsc : List Char → Option (Char × List Char)
  | [] => none
  | e :: rest => if e = 'u' then scanU rest else (unescapeChar e).map (fun u => (u, rest))

theorem scanU_shrink {l r : List Char} {u : Char} (h : scanU l = some (u, r)) :
    r.length < l.length := by
  match l with
  | [] => simp [scanU] at h
  | [a] => simp [scanU] at h
  | [a, b] => simp [scanU] at h
  | [a, b, c] => simp [scanU] at h
  | a :: b :: c :: d :: rest =>
    simp only [scanU] at h
    split at h
    · exact absurd h (by simp)
    · split at h
      · split at h
        · split at h
          · split at h
            · exact absurd h (by simp)
            · split at h
              · simp only [Option.some.injEq, Prod.mk.injEq] at h
                obtain ⟨-, rfl⟩ := h
                simp only [List.length_cons]
                omega
              · exact absurd h (by simp)
          · exact absurd h (by simp)
        · exact absurd h (by simp)
      · split at h
        · exact absurd h (by simp)
        · simp only [Option.some.injEq, Prod.mk.injEq] at h
          obtain ⟨-, rfl⟩ := h
          simp only [List.length_cons]
          omega

theorem scanEsc_shrink {l r : List Char} {u : Char} (h : scanEsc l = some (u, r)) :
    r.length < l.length := by
  match l with
  | [] => simp [scanEsc] at h
  | e :: rest =>
    simp only [scanEsc] at h
    split at h
    · have := scanU_shrink h
      simp only [List.length_cons]
      omega
    · cases hu : unescapeChar e <;> rw [hu] at h
      · cases h
      · simp only [Option.map_some', Option.some.injEq, Prod.mk.injEq] at h
        obtain ⟨-, rfl⟩ := h
        simp

/-- Scan a string body after the opening quote, up to and including the
closing quote; yields the decoded characters and the remaining input. -/
def scanStr (l : List Char) : Option (List Char × List Char) :=
  match l with
  | [] => none
  | c :: rest =>
    if c = '"' then some ([], rest)
    else if c = '\\' then
      match h : scanEsc rest with
      | some (u, r) =>
        (match scanStr r with
        | some (s, r2) => some (u :: s, r2)
        | none => none)
      | none => none
    else if c.toNat < 32 then none
    else
      match scanStr rest with
      | some (s, r2) => some (c :: s, r2)
      | none => none
termination_by l.length
decreasing_by
  · have := scanEsc_shrink h
    simp only [List.length_cons]
    omega
  · simp

/-- Decimal digit predicate. -/
def isDec (c : Char) : Bool := 48 ≤ c.toNat && c.toNat ≤ 57

/-- Consume a maximal digit run, folding it onto `acc` in base 10. -/
def scanDigits (acc : Nat) : List Char → Nat × List Char
  | [] => (acc, [])
  | c :: rest => if isDec c then scanDigits (acc * 10 + (c.toNat - 48)) rest else (acc, c :: rest)

/-- The JSON integer grammar `0 | [1-9][0-9]*`. -/
def scanNat : List Char → Option (Nat × List Char)
  | [] => none
  | c :: rest =>
    if c = '0' then some (0, rest)
    else if isDec c then some (scanDigits (c.toNat - 48) rest)
    else none

/-- After an integer, a `.`, `e` or `E` would extend it to a Python float,
which the embedding does not represent; such input is rejected. -/
def intEnds : List Char → Bool
  | [] => true
  | c :: _ => !(c = '.' || c = 'e' || c = 'E')

/-- Scan a (integer) JSON number with optional minus sign. -/
def scanNum : List Char → Option (JValue × List Char)
  | [] => none
  | c :: rest =>
    if c = '-' then
      match scanNat rest with
      | some (n, r) => if intEnds r then some (.jnum (-(n : Int)), r) else none
      | none => none
    else
      match scanNat (c :: rest) with
      | some (n, r) => if intEnds r then some (.jnum (n : Int), r) else none
      | none => none

/-- The tail of the `null` literal. -/
def scanNullTail : List Char → Option (JValue × List Char)
  | 'u' :: 'l' :: 'l' :: r => some (.jnull, r)
  | _ => none

/-- The tail of the `true` literal. -/
def scanTrueTail : List Char → Option (JValue × List Char)
  | 'r' :: 'u' :: 'e' :: r => some (.jbool true, r)
  | _ => none

/-- The tail of the `false` literal. -/
def scanFalseTail : List Char → Option (JValue × List Char)
  | 'a' :: 'l' :: 's' :: 'e' :: r => some (.jbool false, r)
  | _ => none

mutual
/-- Scan one JSON value; the input must already start at a token (callers
drop whitespace first). -/
def parseVal : Nat → List Char → Option (JValue × List Char)
  | 0, _ => none
  | _ + 1, [] => none
  | f + 1, c :: s =>
    if c = 'n' then scanNullTail s
    else if c = 't' then scanTrueTail s
    else if c = 'f' then scanFalseTail s
    else if c = '"' then
      match scanStr s with
      | some (str, r) => some (.jstr str, r)
      | none => none
    else if c = '[' then
      match dropWs s with
      | [] => none
      | c2 :: r =>
        if c2 = ']' then some (.jarr [], r)
        else
          match parseItems f (c2 :: r) with
          | some (xs, r2) => some (.jarr xs, r2)
          | none => none
    else if c = '{' then
      match dropWs s with
      | [] => none
      | c2 :: r =>
        if c2 = '}' then some (.jobj [], r)
        else
          match parseEntries f (c2 :: r) with
          | some (es, r2) => some (.jobj es, r2)
          | none => none
    else scanNum (c :: s)

/-- Scan the one-or-more comma-separated items of a nonempty array, through
the closing bracket. -/
def parseItems : Nat → List Char → Option (List JValue × List Char)
  | 0, _ => none
  | f + 1, s =>
    match parseVal f s with
    | none => none
    | some (v, r) =>
      match dropWs r with
      | ',' :: r2 =>
        (match parseItems f (dropWs r2) with
        | some (vs, r3) => some (v :: vs, r3)
        | none => none)
      | ']' :: r2 => some ([v], r2)
      | _ => none

/-- Scan the one-or-more `"key": value` entries of a nonempty object,
through the closing brace. -/
def parseEntries : Nat → List Char → Option (List (List Char × JValue) × List Char)
  | 0, _ => none
  | f + 1, s =>
    match s with
    | '"' :: r =>
      (match scanStr r with
      | none => none
      | some (k, r1) =>
        match dropWs r1 with
        | ':' :: r2 =>
          (match parseVal f (dropWs r2) with
          | none => none
          | some (v, r3) =>
            match dropWs r3 with
            | ',' :: r4 =>
              (match parseEntries f (dropWs r4) with
              | some (es, r5) => some ((k, v) :: es, r5)
              | none => none)
            | '}' :: r4 => some ([(k, v)], r4)
            | _ => none)
        | _ => none)
    | _ => none
end

/-- `json.loads`: scan one value surrounded by optional whitespace; anything
further is Python's `Extra data` error. -/
def jsonLoads (s : List Char) : Option JValue :=
  match parseVal (s.length + 1) (dropWs s) with
  | some (v, r) => if dropWs r = [] then some v else none
  | none => none

/-! ### loads inverts dumps: string literals -/

theorem hexCharVal_hexChar : ∀ d < 16, hexCharVal (hexChar d) = some d := by decide

theorem toNat_ofNat_valid {n : Nat} (h : n.isValidChar) : (Char.ofNat n).toNat = n := by
  simp [Char.ofNat, h, Char.toNat, Char.ofNatAux, UInt32.toNat, UInt32.ofNatCore]

theorem hex4Val_hex4Chars {n : Nat} (h : n < 65536) :
    hex4Val (hexChar (n / 4096 % 16)) (hexChar (n / 256 % 16))
      (hexChar (n / 16 % 16)) (hexChar (n % 16)) = some n := by
  have h1 := hexCharVal_hexChar (n / 4096 % 16) (Nat.mod_lt _ (by omega))
  have h2 := hexCharVal_hexChar (n / 256 % 16) (Nat.mod_lt _ (by omega))
  have h3 := hexCharVal_hexChar (n / 16 % 16) (Nat.mod_lt _ (by omega))
  have h4 := hexCharVal_hexChar (n % 16) (Nat.mod_lt _ (by omega))
  simp only [hex4Val, h1, h2, h3, h4, Option.some.injEq]
  omega

theorem scanStr_nil : scanStr [] = none := by rw [scanStr]

/-- One unfolding step of `scanStr`, with the scrutinee binding erased. -/
theorem scanStr_cons (c : Char) (rest : List Char) :
    scanStr (c :: rest)
      = if c = '"' then some ([], rest)
        else if c = '\\' then
          match scanEsc rest with
          | some (u, r) =>
            (match scanStr r with
            | some (s, r2) => some (u :: s, r2)
            | none => none)
          | none => none
        else if c.toNat < 32 then none
        else
          match scanStr rest with
          | some (s, r2) => some (c :: s, r2)
          | none => none := by
  rw [scanStr]
  by_cases h1 : c = '"'
  · simp [h1]
  by_cases h2 : c = '\\'
  · simp only [if_neg h1, if_pos h2]
    rcases hse : scanEsc rest with - | ⟨u, r⟩ <;> rfl
  · simp [h1, h2]

theorem scanU_one (n : Nat) (rest : List Char) (h16 : n < 65536)
    (hs1 : ¬(55296 ≤ n ∧ n ≤ 56319)) (hs2 : ¬(56320 ≤ n ∧ n ≤ 57343)) :
    scanU (hex4Chars n ++ rest) = some (Char.ofNat n, rest) := by
  simp [scanU, hex4Chars, hex4Val_hex4Chars h16, hs1, hs2]

theorem scanU_pair (n m : Nat) (rest : List Char)
    (hn : 55296 ≤ n ∧ n ≤ 56319) (hm : 56320 ≤ m ∧ m ≤ 57343) :
    scanU (hex4Chars n ++ (('\\' :: 'u' :: hex4Chars m) ++ rest))
      = some (Char.ofNat (65536 + (n - 55296) * 1024 + (m - 56320)), rest) := by
  have hn16 : n < 65536 := by omega
  have hm16 : m < 65536 := by omega
  simp [scanU, hex4Chars, hex4Val_hex4Chars hn16, hex4Val_hex4Chars hm16, hn, hm]

theorem scanEsc_u (s : List Char) : scanEsc ('u' :: s) = scanU s := by
  simp [scanEsc]

/-- Scanning an escape sequence produced by `escapeChar` (for a character
that `escapeChar` escapes) recovers the character. -/
theorem scanEsc_escapeChar (c : Char) (t rest : List Char)
    (h : escapeChar c = '\\' :: t) : scanEsc (t ++ rest) = some (c, rest) := by
  by_cases h1 : c = '\\'
  · subst h1
    rw [show t = ['\\'] from by simpa [escapeChar] using h.symm]
    simp [scanEsc, unescapeChar]
  by_cases h2 : c = '"'
  · subst h2
    rw [show t = ['"'] from by simpa [escapeChar] using h.symm]
    simp [scanEsc, unescapeChar]
  by_cases h3 : c.toNat = 8
  · have hc : Char.ofNat 8 = c := by rw [← h3, Char.ofNat_toNat]
    rw [show t = ['b'] from by simpa [escapeChar, h1, h2, h3] using h.symm]
    simp [scanEsc, unescapeChar]
    exact hc
  by_cases h4 : c.toNat = 9
  · have hc : Char.ofNat 9 = c := by rw [← h4, Char.ofNat_toNat]
    rw [show t = ['t'] from by simpa [escapeChar, h1, h2, h3, h4] using h.symm]
    simp [scanEsc, unescapeChar]
    exact hc
  by_cases h5 : c.toNat = 10
  · have hc : Char.ofNat 10 = c := by rw [← h5, Char.ofNat_toNat]
    rw [show t = ['n'] from by simpa [escapeChar, h1, h2, h3, h4, h5] using h.symm]
    simp [scanEsc, unescapeChar]
    exact hc
  by_cases h6 : c.toNat = 12
  · have hc : Char.ofNat 12 = c := by rw [← h6, Char.ofNat_toNat]
    rw [show t = ['f'] from by simpa [escapeChar, h1, h2, h3, h4, h5, h6] using h.symm]
    simp [scanEsc, unescapeChar]
    exact hc
  by_cases h7 : c.toNat = 13
  · have hc : Char.ofNat 13 = c := by rw [← h7, Char.ofNat_toNat]
    rw [show t = ['r'] from by simpa [escapeChar, h1, h2, h3, h4, h5, h6, h7] using h.symm]
    simp [scanEsc, unescapeChar]
    exact hc
  by_cases h8 : 32 ≤ c.toNat ∧ c.toNat ≤ 126
  · exact absurd h (by simp [escapeChar, h1, h2, h3, h4, h5, h6, h7, h8])
  by_cases h9 : c.toNat < 65536
  · have ht : t = 'u' :: hex4Chars c.toNat := by
      have := h
      rw [escapeChar, if_neg h1, if_neg h2, if_neg h3, if_neg h4, if_neg h5, if_neg h6,
        if_neg h7, if_neg h8, if_pos h9] at this
      simpa using this.symm
    have hvalid := c.valid
    have hcv : c.toNat = c.val.toNat := rfl
    have hsur : ¬(55296 ≤ c.toNat ∧ c.toNat ≤ 56319) := by
      rcases hvalid with hv | hv <;> omega
    have hsur2 : ¬(56320 ≤ c.toNat ∧ c.toNat ≤ 57343) := by
      rcases hvalid with hv | hv <;> omega
    subst ht
    rw [List.cons_append, scanEsc_u, scanU_one c.toNat rest h9 hsur hsur2, Char.ofNat_toNat]
  · have ht : t = 'u' :: (hex4Chars (55296 + (c.toNat - 65536) / 1024)
        ++ ('\\' :: 'u' :: hex4Chars (56320 + (c.toNat - 65536) % 1024))) := by
      have := h
      rw [escapeChar, if_neg h1, if_neg h2, if_neg h3, if_neg h4, if_neg h5, if_neg h6,
        if_neg h7, if_neg h8, if_neg h9] at this
      simpa [hex4Chars] using this.symm
    have hvalid := c.valid
    have hcv : c.toNat = c.val.toNat := rfl
    have hub : c.toNat < 1114112 := by rcases hvalid with hv | hv <;> omega
    have hmod := Nat.mod_lt (c.toNat - 65536) (show 0 < 1024 by omega)
    have hdiv : (c.toNat - 65536) / 1024 ≤ 1023 := by omega
    have hhi : 55296 + (c.toNat - 65536) / 1024 < 65536 := by omega
    have hlo : 56320 + (c.toNat - 65536) % 1024 < 65536 := by omega
    have hhir : 55296 ≤ 55296 + (c.toNat - 65536) / 1024
        ∧ 55296 + (c.toNat - 65536) / 1024 ≤ 56319 := by omega
    have hlor : 56320 ≤ 56320 + (c.toNat - 65536) % 1024
        ∧ 56320 + (c.toNat - 65536) % 1024 ≤ 57343 := by omega
    have hcomb : 65536 + (55296 + (c.toNat - 65536) / 1024 - 55296) * 1024
        + (56320 + (c.toNat - 65536) % 1024 - 56320) = c.toNat := by omega
    subst ht
    rw [List.cons_append, scanEsc_u, List.append_assoc, scanU_pair _ _ rest hhir hlor]
    have harg : 65536 + (55296 + (c.toNat - 65536) / 1024 - 55296) * 1024
        + (56320 + (c.toNat - 65536) % 1024 - 56320) = c.toNat := by omega
    rw [harg, Char.ofNat_toNat]

/-- Scanning one escaped character recovers it and proceeds. -/
theorem scanStr_escapeChar (c : Char) (rest : List Char) :
    scanStr (escapeChar c ++ rest)
      = match scanStr rest with
        | some (s, r) => some (c :: s, r)
        | none => none := by
  by_cases hp : escapeChar c = [c]
  · have hc1 : ¬c = '"' := by
      intro hq
      subst hq
      simp [escapeChar] at hp
    have hc2 : ¬c = '\\' := by
      intro hq
      subst hq
      simp [escapeChar] at hp
    have hc3 : ¬c.toNat < 32 := by
      by_contra hlt
      have h3 : ¬c.toNat = 8 := fun hq => by simp [escapeChar, hc2, hc1, hq] at hp
      have h4 : ¬c.toNat = 9 := fun hq => by simp [escapeChar, hc2, hc1, h3, hq] at hp
      have h5 : ¬c.toNat = 10 := fun hq => by simp [escapeChar, hc2, hc1, h3, h4, hq] at hp
      have h6 : ¬c.toNat = 12 := fun hq => by simp [escapeChar, hc2, hc1, h3, h4, h5, hq] at hp
      have h7 : ¬c.toNat = 13 := fun hq => by
        simp [escapeChar, hc2, hc1, h3, h4, h5, h6, hq] at hp
      have h8 : ¬(32 ≤ c.toNat ∧ c.toNat ≤ 126) := by omega
      have h9 : c.toNat < 65536 := by omega
      rw [escapeChar, if_neg hc2, if_neg hc1, if_neg h3, if_neg h4, if_neg h5, if_neg h6,
        if_neg h7, if_neg h8, if_pos h9] at hp
      simp at hp
    rw [hp, List.cons_append, List.nil_append, scanStr_cons, if_neg hc1, if_neg hc2,
      if_neg hc3]
  · have hesc : ∃ t, escapeChar c = '\\' :: t := by
      rw [escapeChar]
      split
      · exact ⟨_, rfl⟩
      split
      · exact ⟨_, rfl⟩
      split
      · exact ⟨_, rfl⟩
      split
      · exact ⟨_, rfl⟩
      split
      · exact ⟨_, rfl⟩
      split
      · exact ⟨_, rfl⟩
      split
      · exact ⟨_, rfl⟩
      split
      · rename_i hq
        exact absurd (by rw [escapeChar]; simp [*] : escapeChar c = [c]) hp
      split
      · exact ⟨_, rfl⟩
      · exact ⟨_, rfl⟩
    obtain ⟨t, ht⟩ := hesc
    rw [ht, List.cons_append, scanStr_cons, if_neg (by decide), if_pos rfl,
      scanEsc_escapeChar c t rest ht]

/-- Scanning a dumped string body recovers the original characters and
stops right after the closing quote. -/
theorem scanStr_escBody (s rest : List Char) :
    scanStr (escBody s ++ rest) = some (s, rest) := by
  induction s with
  | nil => simp [escBody, scanStr]
  | cons c cs ih => rw [escBody, List.append_assoc, scanStr_escapeChar, ih]

/-! ### loads inverts dumps: integers -/

theorem decChar_spec : ∀ d < 10, isDec (decChar d) = true ∧ (decChar d).toNat = 48 + d := by
  decide

/-- A remainder whose head cannot extend a decimal literal (neither a digit
nor one of `.`, `e`, `E`).  Every separator a dump emits after a number —
`,`, `]`, `}`, end of input — qualifies. -/
def numBreak : List Char → Prop
  | [] => True
  | c :: _ => isDec c = false ∧ c ≠ '.' ∧ c ≠ 'e' ∧ c ≠ 'E'

theorem scanDigits_stop {acc : Nat} {rest : List Char} (h : numBreak rest) :
    scanDigits acc rest = (acc, rest) := by
  cases rest with
  | nil => rfl
  | cons c t => simp [scanDigits, h.1]

theorem scanDigits_run {ds : List Char} (hds : ∀ c ∈ ds, isDec c = true)
    {rest : List Char} (hrest : numBreak rest) (acc : Nat) :
    scanDigits acc (ds ++ rest)
      = (ds.foldl (fun a c => a * 10 + (c.toNat - 48)) acc, rest) := by
  induction ds generalizing acc with
  | nil => simpa using scanDigits_stop hrest
  | cons c t ih =>
    have hc := hds c (by simp)
    simp only [List.cons_append, scanDigits, hc, if_pos, List.foldl_cons]
    exact ih (fun x hx => hds x (by simp [hx])) _

theorem decDigits_all_dec (n : Nat) : ∀ c ∈ decDigits n, isDec c = true := by
  induction n using Nat.strong_induction_on with
  | _ n ih =>
    intro c hc
    rw [decDigits] at hc
    by_cases h : n < 10
    · rw [if_pos h] at hc
      simp only [List.mem_singleton] at hc
      subst hc
      exact (decChar_spec n h).1
    · rw [if_neg h] at hc
      rcases List.mem_append.mp hc with h1 | h1
      · exact ih (n / 10) (Nat.div_lt_self (by omega) (by omega)) c h1
      · simp only [List.mem_singleton] at h1
        subst h1
        exact (decChar_spec (n % 10) (Nat.mod_lt _ (by omega))).1

theorem decDigits_foldl (n : Nat) : ∀ acc : Nat,
    (decDigits n).foldl (fun a c => a * 10 + (c.toNat - 48)) acc
      = acc * 10 ^ (decDigits n).length + n := by
  induction n using Nat.strong_induction_on with
  | _ n ih =>
    intro acc
    rw [decDigits]
    by_cases h : n < 10
    · simp [if_pos h, (decChar_spec n h).2]
    · rw [if_neg h, List.foldl_append, ih (n / 10) (Nat.div_lt_self (by omega) (by omega)),
        List.length_append]
      simp only [List.foldl_cons, List.foldl_nil, List.length_cons, List.length_nil]
      rw [(decChar_spec (n % 10) (Nat.mod_lt _ (by omega))).2, pow_succ]
      have hmod : 48 + n % 10 - 48 = n % 10 := by omega
      rw [hmod]
      have hdm := Nat.div_add_mod n 10
      ring_nf
      omega

/-- The head digit of a dumped positive integer is nonzero. -/
theorem decDigits_head_pos (n : Nat) (hn : 1 ≤ n) :
    ∃ c t, decDigits n = c :: t ∧ isDec c = true ∧ c ≠ '0' := by
  induction n using Nat.strong_induction_on with
  | _ n ih =>
    rw [decDigits]
    by_cases h : n < 10
    · refine ⟨decChar n, [], by simp [if_pos h], (decChar_spec n h).1, ?_⟩
      intro hq
      have := congrArg Char.toNat hq
      rw [(decChar_spec n h).2] at this
      have h0 : ('0' : Char).toNat = 48 := by decide
      omega
    · obtain ⟨c, t, heq, hdec, hz⟩ := ih (n / 10) (Nat.div_lt_self (by omega) (by omega))
        (by omega)
      exact ⟨c, t ++ [decChar (n % 10)], by simp [if_neg h, heq], hdec, hz⟩

theorem decDigits_zero : decDigits 0 = ['0'] := by
  rw [decDigits]
  norm_num
  decide

theorem scanNat_decDigits (n : Nat) {rest : List Char} (hrest : numBreak rest) :
    scanNat (decDigits n ++ rest) = some (n, rest) := by
  by_cases h0 : n = 0
  · subst h0
    rw [decDigits_zero]
    simp [scanNat]
  · obtain ⟨c, t, heq, hdec, hz⟩ := decDigits_head_pos n (by omega)
    rw [heq, List.cons_append]
    have hall := decDigits_all_dec n
    rw [heq] at hall
    have hfold := decDigits_foldl n 0
    rw [heq] at hfold
    simp only [List.foldl_cons, Nat.zero_mul, Nat.zero_add] at hfold
    rw [scanNat]
    rw [if_neg hz, if_pos hdec]
    rw [scanDigits_run (fun x hx => hall x (by simp [hx])) hrest]
    rw [show (c.toNat - 48) = 0 * 10 + (c.toNat - 48) from by omega] at hfold ⊢
    rw [hfold]

/-- A digit character differs from the chars that open other tokens. -/
theorem isDec_ne {c : Char} (h : isDec c = true) :
    c ≠ '-' ∧ c ≠ 'n' ∧ c ≠ 't' ∧ c ≠ 'f' ∧ c ≠ '"' ∧ c ≠ '[' ∧ c ≠ '{'
      ∧ isJsonWs c = false ∧ c ≠ ']' ∧ c ≠ '}' ∧ c ≠ ',' ∧ c ≠ ':' := by
  have hn : 48 ≤ c.toNat ∧ c.toNat ≤ 57 := by simpa [isDec] using h
  have hne : ∀ d : Char, d.toNat < 48 ∨ 57 < d.toNat → c ≠ d := by
    intro d hd hq
    subst hq
    omega
  refine ⟨hne _ (by decide), hne _ (by decide), hne _ (by decide), hne _ (by decide),
    hne _ (by decide), hne _ (by decide), hne _ (by decide), ?_, hne _ (by decide),
    hne _ (by decide), hne _ (by decide), hne _ (by decide)⟩
  simp only [isJsonWs, Bool.or_eq_false_iff, decide_eq_false_iff_not]
  exact ⟨⟨⟨hne _ (by decide), hne _ (by decide)⟩, hne _ (by decide)⟩, hne _ (by decide)⟩

/-- Scanning a dumped integer recovers it, whenever the remainder cannot
extend the literal. -/
theorem scanNum_intChars (i : Int) {rest : List Char} (hrest : numBreak rest) :
    scanNum (intChars i ++ rest) = some (.jnum i, rest) := by
  have hends : ∀ r : List Char, numBreak r → intEnds r = true := by
    intro r hr
    cases r with
    | nil => rfl
    | cons c t =>
      simp only [intEnds, Bool.not_eq_true']
      simp only [numBreak] at hr
      simp [hr.2.1, hr.2.2.1, hr.2.2.2]
  cases i with
  | ofNat n =>
    by_cases h0 : n = 0
    · subst h0
      rw [show intChars (Int.ofNat 0) = ['0'] from by
        simp [intChars, decDigits_zero]]
      simp [scanNum, scanNat, hends rest hrest]
    · obtain ⟨c, t, heq, hdec, -⟩ := decDigits_head_pos n (by omega)
      have hne := isDec_ne hdec
      rw [show intChars (Int.ofNat n) = decDigits n from rfl, heq, List.cons_append,
        scanNum, if_neg hne.1, ← List.cons_append, ← heq, scanNat_decDigits n hrest]
      simp [hends rest hrest]
  | negSucc m =>
    rw [show intChars (Int.negSucc m) = '-' :: decDigits (m + 1) from rfl, List.cons_append,
      scanNum]
    rw [if_pos rfl, scanNat_decDigits (m + 1) hrest]
    simp only [hends rest hrest, if_pos, Option.some.injEq, Prod.mk.injEq, JValue.jnum.injEq]
    refine ⟨?_, trivial⟩
    rw [Int.negSucc_eq]
    omega

/-! ### loads inverts dumps: values -/

theorem decDigits_head (n : Nat) : ∃ c t, decDigits n = c :: t ∧ isDec c = true := by
  by_cases h0 : n = 0
  · subst h0
    exact ⟨'0', [], decDigits_zero, by decide⟩
  · obtain ⟨c, t, heq, hdec, -⟩ := decDigits_head_pos n (by omega)
    exact ⟨c, t, heq, hdec⟩

/-- Every dumped value opens with a character that is not whitespace and
closes no bracket. -/
theorem dumpVal_head (v : JValue) :
    ∃ c t, dumpVal v = c :: t ∧ isJsonWs c = false ∧ c ≠ ']' ∧ c ≠ '}' := by
  cases v with
  | jnull => exact ⟨'n', _, rfl, rfl, by decide, by decide⟩
  | jbool b =>
    rcases b with - | -
    · exact ⟨'f', _, rfl, rfl, by decide, by decide⟩
    · exact ⟨'t', _, rfl, rfl, by decide, by decide⟩
  | jstr s => exact ⟨'"', _, rfl, rfl, by decide, by decide⟩
  | jarr items =>
    rcases items with - | ⟨x, xs⟩ <;> exact ⟨'[', _, rfl, rfl, by decide, by decide⟩
  | jobj entries => cases entries with
    | nil => exact ⟨'{', _, rfl, by decide, by decide, by decide⟩
    | cons e es => exact ⟨'{', _, rfl, by decide, by decide, by decide⟩
  | jnum i => cases i with
    | ofNat n =>
      obtain ⟨c, t, heq, hdec⟩ := decDigits_head n
      have hne := isDec_ne hdec
      exact ⟨c, t, heq, hne.2.2.2.2.2.2.2.1, hne.2.2.2.2.2.2.2.2.1, hne.2.2.2.2.2.2.2.2.2.1⟩
    | negSucc m =>
      exact ⟨'-', _, rfl, by decide, by decide, by decide⟩

/-- `dropWs` does not touch dumped output. -/
theorem dropWs_dump (v : JValue) (x : List Char) :
    dropWs (dumpVal v ++ x) = dumpVal v ++ x := by
  obtain ⟨c, t, heq, hws, -, -⟩ := dumpVal_head v
  rw [heq, List.cons_append, dropWs]
  simp [hws]

theorem dropWs_space (x : List Char) : dropWs (' ' :: x) = dropWs x := by
  simp [dropWs, isJsonWs]

/-- With the leading character neither a literal opener, a quote, a bracket
nor a brace, `parseVal` hands the input to the number scanner. -/
theorem parseVal_step_num (f : Nat) (c : Char) (s : List Char)
    (h : c = '-' ∨ isDec c = true) :
    parseVal (f + 1) (c :: s) = scanNum (c :: s) := by
  have hn : c ≠ 'n' ∧ c ≠ 't' ∧ c ≠ 'f' ∧ c ≠ '"' ∧ c ≠ '[' ∧ c ≠ '{' := by
    rcases h with h | h
    · subst h
      refine ⟨by decide, by decide, by decide, by decide, by decide, by decide⟩
    · have := isDec_ne h
      exact ⟨this.2.1, this.2.2.1, this.2.2.2.1, this.2.2.2.2.1, this.2.2.2.2.2.1,
        this.2.2.2.2.2.2.1⟩
  rw [parseVal, if_neg hn.1, if_neg hn.2.1, if_neg hn.2.2.1, if_neg hn.2.2.2.1,
    if_neg hn.2.2.2.2.1, if_neg hn.2.2.2.2.2]

mutual
/-- Parsing a dumped value recovers it exactly, with any remainder that
cannot extend a trailing number literal. -/
theorem rt_val : ∀ (v : JValue) (f : Nat) (rest : List Char),
    (dumpVal v).length < f → numBreak rest →
    parseVal f (dumpVal v ++ rest) = some (v, rest)
  | .jnull, f, rest, hf, _ => by
    match f, hf with
    | f + 1, _ => rw [show dumpVal .jnull = 'n' :: ['u', 'l', 'l'] from rfl]
                  simp [parseVal, scanNullTail]
  | .jbool true, f, rest, hf, _ => by
    match f, hf with
    | f + 1, _ => rw [show dumpVal (.jbool true) = 't' :: ['r', 'u', 'e'] from rfl]
                  simp [parseVal, scanTrueTail]
  | .jbool false, f, rest, hf, _ => by
    match f, hf with
    | f + 1, _ => rw [show dumpVal (.jbool false) = 'f' :: ['a', 'l', 's', 'e'] from rfl]
                  simp [parseVal, scanFalseTail]
  | .jnum i, f, rest, hf, hr => by
    match f, hf with
    | f + 1, _ =>
      have hhead : ∃ c t, intChars i = c :: t ∧ (c = '-' ∨ isDec c = true) := by
        cases i with
        | ofNat n =>
          obtain ⟨c, t, heq, hdec⟩ := decDigits_head n
          exact ⟨c, t, heq, Or.inr hdec⟩
        | negSucc m => exact ⟨'-', _, rfl, Or.inl rfl⟩
      obtain ⟨c, t, heq, hc⟩ := hhead
      rw [show dumpVal (.jnum i) = intChars i from rfl, heq, List.cons_append,
        parseVal_step_num f c _ hc, ← List.cons_append, ← heq, scanNum_intChars i hr]
  | .jstr s, f, rest, hf, _ => by
    match f, hf with
    | f + 1, _ =>
      rw [show dumpVal (.jstr s) = '"' :: escBody s from rfl, List.cons_append, parseVal]
      simp [scanStr_escBody]
  | .jarr [], f, rest, hf, _ => by
    match f, hf with
    | f + 1, _ =>
      rw [show dumpVal (.jarr []) = '[' :: [']'] from rfl]
      simp [parseVal, dropWs, isJsonWs]
  | .jarr (x :: xs), f, rest, hf, _ => by
    match f, hf with
    | f + 1, _ =>
      rw [show dumpVal (.jarr (x :: xs)) ++ rest
          = '[' :: (dumpVal x ++ dumpMoreItems xs ++ (']' :: rest)) from by
        simp [dumpVal]]
      rw [parseVal, if_neg (by decide), if_neg (by decide), if_neg (by decide),
        if_neg (by decide), if_pos rfl]
      obtain ⟨c, t, heq, hws, hbr, -⟩ := dumpVal_head x
      have hdw : dropWs (dumpVal x ++ dumpMoreItems xs ++ (']' :: rest))
          = dumpVal x ++ dumpMoreItems xs ++ (']' :: rest) := by
        rw [List.append_assoc]
        exact dropWs_dump x _
      rw [hdw]
      have hlen : (dumpVal x ++ dumpMoreItems xs).length + 1 < f := by
        have hq : (dumpVal (.jarr (x :: xs))).length
            = (dumpVal x ++ dumpMoreItems xs).length + 2 := by
          simp [dumpVal]
          omega
        omega
      have hitems := rt_items x xs f rest hlen
      rw [heq] at hitems ⊢
      simp only [List.cons_append, List.append_assoc] at hitems ⊢
      rw [if_neg hbr, hitems]
  | .jobj [], f, rest, hf, _ => by
    match f, hf with
    | f + 1, _ =>
      rw [show dumpVal (.jobj []) = '{' :: ['}'] from rfl]
      simp [parseVal, dropWs, isJsonWs]
  | .jobj (e :: es), f, rest, hf, _ => by
    match f, hf with
    | f + 1, _ =>
      rw [show dumpVal (.jobj (e :: es)) ++ rest
          = '{' :: (quoteStr e.1 ++ ':' :: ' ' :: dumpVal e.2 ++ dumpMoreEntries es
              ++ ('}' :: rest)) from by simp [dumpVal]]
      rw [parseVal, if_neg (by decide), if_neg (by decide), if_neg (by decide),
        if_neg (by decide), if_neg (by decide), if_pos rfl]
      have hdw : dropWs (quoteStr e.1 ++ ':' :: ' ' :: dumpVal e.2 ++ dumpMoreEntries es
          ++ ('}' :: rest)) = quoteStr e.1 ++ ':' :: ' ' :: dumpVal e.2 ++ dumpMoreEntries es
          ++ ('}' :: rest) := by
        rw [quoteStr]
        simp [dropWs, isJsonWs]
      rw [hdw]
      have hlen : (quoteStr e.1 ++ ':' :: ' ' :: dumpVal e.2 ++ dumpMoreEntries es).length + 1
          < f := by
        have hq : (dumpVal (.jobj (e :: es))).length
            = (quoteStr e.1 ++ ':' :: ' ' :: dumpVal e.2 ++ dumpMoreEntries es).length
              + 2 := by
          simp [dumpVal]
          omega
        omega
      have hentries := rt_entries e.1 e.2 es f rest hlen
      rw [show quoteStr e.1 ++ ':' :: ' ' :: dumpVal e.2 ++ dumpMoreEntries es ++ ('}' :: rest)
          = '"' :: (escBody e.1 ++ ':' :: ' ' :: dumpVal e.2 ++ dumpMoreEntries es
            ++ ('}' :: rest)) from by simp [quoteStr]]
      simp only [List.cons_append, List.append_assoc] at hentries ⊢
      rw [if_neg (by decide : ¬('"' : Char) = '}'), hentries]
  termination_by v => sizeOf v
  decreasing_by
    all_goals simp_wf
    · omega
    · cases e with
      | mk k2 v2 => simp
                    omega

/-- Parsing the dumped items of a nonempty array through the closing
bracket recovers the item list. -/
theorem rt_items : ∀ (x : JValue) (xs : List JValue) (f : Nat) (rest : List Char),
    (dumpVal x ++ dumpMoreItems xs).length + 1 < f →
    parseItems f (dumpVal x ++ dumpMoreItems xs ++ (']' :: rest)) = some (x :: xs, rest)
  | x, [], f, rest, hf => by
    match f, hf with
    | f + 1, hf2 =>
      rw [parseItems]
      have hv := rt_val x f (']' :: rest) (by
          simp only [List.length_append] at hf2
          omega)
        ⟨by decide, by decide, by decide, by decide⟩
      rw [show dumpVal x ++ dumpMoreItems [] ++ (']' :: rest) = dumpVal x ++ (']' :: rest)
        from by simp [dumpMoreItems]]
      rw [hv]
      simp [dropWs, isJsonWs]
  | x, y :: ys, f, rest, hf => by
    match f, hf with
    | f + 1, hf2 =>
      rw [parseItems]
      have hlen : (dumpVal x).length < f := by
        simp only [List.length_append] at hf2
        omega
      have hv := rt_val x f (',' :: ' ' :: (dumpVal y ++ dumpMoreItems ys ++ (']' :: rest)))
        hlen ⟨by decide, by decide, by decide, by decide⟩
      rw [show dumpVal x ++ dumpMoreItems (y :: ys) ++ (']' :: rest)
          = dumpVal x ++ (',' :: ' ' :: (dumpVal y ++ dumpMoreItems ys ++ (']' :: rest)))
        from by simp [dumpMoreItems]]
      rw [hv]
      have hrec := rt_items y ys f rest (by
        simp only [dumpMoreItems, List.length_append, List.length_cons] at hf2 ⊢
        omega)
      have hdw1 : dropWs (',' :: ' ' :: (dumpVal y ++ dumpMoreItems ys ++ (']' :: rest)))
          = ',' :: (' ' :: (dumpVal y ++ dumpMoreItems ys ++ (']' :: rest))) := by
        simp [dropWs, isJsonWs]
      have hdw2 : dropWs (' ' :: (dumpVal y ++ dumpMoreItems ys ++ (']' :: rest)))
          = dumpVal y ++ dumpMoreItems ys ++ (']' :: rest) := by
        rw [dropWs_space, List.append_assoc, dropWs_dump, ← List.append_assoc]
      simp only [hdw1, hdw2, hrec]
  termination_by x xs => sizeOf x + sizeOf xs

/-- Parsing the dumped entries of a nonempty object through the closing
brace recovers the entry list. -/
theorem rt_entries : ∀ (k : List Char) (v : JValue) (es : List (List Char × JValue))
    (f : Nat) (rest : List Char),
    (quoteStr k ++ ':' :: ' ' :: dumpVal v ++ dumpMoreEntries es).length + 1 < f →
    parseEntries f ('"' :: (escBody k ++ ':' :: ' ' :: dumpVal v ++ dumpMoreEntries es
      ++ ('}' :: rest))) = some ((k, v) :: es, rest)
  | k, v, [], f, rest, hf => by
    match f, hf with
    | f + 1, hf2 =>
      rw [parseEntries]
      rw [show escBody k ++ ':' :: ' ' :: dumpVal v ++ dumpMoreEntries [] ++ ('}' :: rest)
          = escBody k ++ (':' :: ' ' :: (dumpVal v ++ ('}' :: rest))) from by
        simp [dumpMoreEntries]]
      rw [scanStr_escBody]
      have hv := rt_val v f ('}' :: rest) (by
          simp only [quoteStr, List.length_append, List.length_cons] at hf2
          omega)
        ⟨by decide, by decide, by decide, by decide⟩
      have hdwc : dropWs (':' :: ' ' :: (dumpVal v ++ ('}' :: rest)))
          = ':' :: (' ' :: (dumpVal v ++ ('}' :: rest))) := by
        simp [dropWs, isJsonWs]
      have hdw2 : dropWs (' ' :: (dumpVal v ++ ('}' :: rest)))
          = dumpVal v ++ ('}' :: rest) := by
        rw [dropWs_space, dropWs_dump]
      simp only [hdwc, hdw2, hv]
      simp [dropWs, isJsonWs]
  | k, v, e2 :: es2, f, rest, hf => by
    match f, hf with
    | f + 1, hf2 =>
      rw [parseEntries]
      rw [show escBody k ++ ':' :: ' ' :: dumpVal v ++ dumpMoreEntries (e2 :: es2)
          ++ ('}' :: rest)
          = escBody k ++ (':' :: ' ' :: (dumpVal v ++ (',' :: ' ' :: (quoteStr e2.1
            ++ ':' :: ' ' :: dumpVal e2.2 ++ dumpMoreEntries es2 ++ ('}' :: rest)))))
        from by simp [dumpMoreEntries, quoteStr]]
      rw [scanStr_escBody]
      have hv := rt_val v f (',' :: ' ' :: (quoteStr e2.1 ++ ':' :: ' ' :: dumpVal e2.2
          ++ dumpMoreEntries es2 ++ ('}' :: rest))) (by
          simp only [quoteStr, List.length_append, List.length_cons] at hf2
          omega)
        ⟨by decide, by decide, by decide, by decide⟩
      have hdwc : dropWs (':' :: ' ' :: (dumpVal v ++ (',' :: ' ' :: (quoteStr e2.1
          ++ ':' :: ' ' :: dumpVal e2.2 ++ dumpMoreEntries es2 ++ ('}' :: rest)))))
          = ':' :: (' ' :: (dumpVal v ++ (',' :: ' ' :: (quoteStr e2.1
            ++ ':' :: ' ' :: dumpVal e2.2 ++ dumpMoreEntries es2 ++ ('}' :: rest))))) := by
        simp [dropWs, isJsonWs]
      have hdw2 : dropWs (' ' :: (dumpVal v ++ (',' :: ' ' :: (quoteStr e2.1
          ++ ':' :: ' ' :: dumpVal e2.2 ++ dumpMoreEntries es2 ++ ('}' :: rest)))))
          = dumpVal v ++ (',' :: ' ' :: (quoteStr e2.1
            ++ ':' :: ' ' :: dumpVal e2.2 ++ dumpMoreEntries es2 ++ ('}' :: rest))) := by
        rw [dropWs_space, dropWs_dump]
      have hdw3 : dropWs (',' :: ' ' :: (quoteStr e2.1 ++ ':' :: ' ' :: dumpVal e2.2
          ++ dumpMoreEntries es2 ++ ('}' :: rest)))
          = ',' :: (' ' :: (quoteStr e2.1 ++ ':' :: ' ' :: dumpVal e2.2
            ++ dumpMoreEntries es2 ++ ('}' :: rest))) := by
        simp [dropWs, isJsonWs]
      have hdw4 : dropWs (' ' :: (quoteStr e2.1 ++ ':' :: ' ' :: dumpVal e2.2
          ++ dumpMoreEntries es2 ++ ('}' :: rest)))
          = quoteStr e2.1 ++ ':' :: ' ' :: dumpVal e2.2
            ++ dumpMoreEntries es2 ++ ('}' :: rest) := by
        rw [dropWs_space, quoteStr]
        simp [dropWs, isJsonWs]
      have hrec := rt_entries e2.1 e2.2 es2 f rest (by
        simp only [dumpMoreEntries, quoteStr, List.length_append, List.length_cons] at hf2 ⊢
        omega)
      have hq2 : quoteStr e2.1 ++ ':' :: ' ' :: dumpVal e2.2 ++ dumpMoreEntries es2
          ++ ('}' :: rest) = '"' :: (escBody e2.1 ++ ':' :: ' ' :: dumpVal e2.2
            ++ dumpMoreEntries es2 ++ ('}' :: rest)) := by simp [quoteStr]
      rw [hq2] at hdwc hdw2 hdw3 hdw4 hv ⊢
      simp only [hdwc, hdw2, hv, hdw3, hdw4, hrec]
  termination_by k v es => sizeOf v + sizeOf es
  decreasing_by
    all_goals simp_wf
    all_goals try omega
    all_goals cases e2 with
      | mk k2 v2 =>
        simp
        omega
end

/-- `json.loads` inverts `json.dumps` on every representable value. -/
theorem jsonLoads_dumpVal (v : JValue) : jsonLoads (dumpVal v) = some v := by
  have hv := rt_val v ((dumpVal v).length + 1) [] (by omega) trivial
  rw [List.append_nil] at hv
  rw [jsonLoads, show dropWs (dumpVal v) = dumpVal v from by
    have := dropWs_dump v []
    simpa using this]
  rw [hv]
  simp [dropWs]

/-! ### UTF-8 (`str.encode("utf-8")` / `bytes.decode()`)

Python's strict codec: the encoder emits 1 to 4 bytes per scalar value; the
decoder rejects continuation errors, overlong forms, surrogates and values
beyond U+10FFFF. -/

/-- UTF-8 bytes of one character. -/
def utf8EncodeChar (c : Char) : List Nat :=
  let n := c.toNat
  if n < 128 then [n]
  else if n < 2048 then [192 + n / 64, 128 + n % 64]
  else if n < 65536 then [224 + n / 4096, 128 + n / 64 % 64, 128 + n % 64]
  else [240 + n / 262144, 128 + n / 4096 % 64, 128 + n / 64 % 64, 128 + n % 64]

/-- `str.encode("utf-8")`. -/
def utf8Encode : List Char → List Nat
  | [] => []
  | c :: cs => utf8EncodeChar c ++ utf8Encode cs

/-- A UTF-8 continuation byte. -/
def isCont (b : Nat) : Bool := 128 ≤ b && b < 192

/-- Decode one scalar value from its leading byte and the remaining input,
yielding the character and how many continuation bytes it used; rejects
continuation errors, overlong forms, surrogates and values beyond U+10FFFF
exactly as the strict codec does. -/
def utf8DecodeStep (b : Nat) (rest : List Nat) : Option (Char × Nat) :=
  if b < 128 then some (Char.ofNat b, 0)
  else if b < 194 then none
  else if b < 224 then
    match rest with
    | b2 :: _ =>
      if isCont b2 then some (Char.ofNat ((b - 192) * 64 + (b2 - 128)), 1) else none
    | _ => none
  else if b < 240 then
    match rest with
    | b2 :: b3 :: _ =>
      let n := (b - 224) * 4096 + (b2 - 128) * 64 + (b3 - 128)
      if isCont b2 ∧ isCont b3 ∧ 2048 ≤ n ∧ ¬(55296 ≤ n ∧ n ≤ 57343) then
        some (Char.ofNat n, 2)
      else none
    | _ => none
  else if b < 245 then
    match rest with
    | b2 :: b3 :: b4 :: _ =>
      let n := (b - 240) * 262144 + (b2 - 128) * 4096 + (b3 - 128) * 64 + (b4 - 128)
      if isCont b2 ∧ isCont b3 ∧ isCont b4 ∧ 65536 ≤ n ∧ n < 1114112 then
        some (Char.ofNat n, 3)
      else none
    | _ => none
  else none

/-- `bytes.decode()` with the default strict UTF-8 codec; `none` is Python's
`UnicodeDecodeError`. -/
def utf8Decode (l : List Nat) : Option (List Char) :=
  match l with
  | [] => some []
  | b :: rest =>
    match utf8DecodeStep b rest with
    | some (c, k) =>
      (match utf8Decode (rest.drop k) with
      | some s => some (c :: s)
      | none => none)
    | none => none
termination_by l.length
decreasing_by
  simp only [List.length_cons, List.length_drop]
  omega

theorem utf8Decode_nil : utf8Decode [] = some [] := by rw [utf8Decode]

/-- One unfolding step of `utf8Decode`. -/
theorem utf8Decode_cons (b : Nat) (rest : List Nat) :
    utf8Decode (b :: rest)
      = match utf8DecodeStep b rest with
        | some (c, k) =>
          (match utf8Decode (rest.drop k) with
          | some s => some (c :: s)
          | none => none)
        | none => none := by
  rw [utf8Decode]

/-- Every encoded byte is a byte. -/
theorem utf8Encode_lt (s : List Char) : ∀ b ∈ utf8Encode s, b < 256 := by
  induction s with
  | nil => simp [utf8Encode]
  | cons c cs ih =>
    intro b hb
    rw [utf8Encode] at hb
    rcases List.mem_append.mp hb with h | h
    · rw [utf8EncodeChar] at h
      have hv := c.valid
      have hcv : c.toNat = c.val.toNat := rfl
      have hub : c.toNat < 1114112 := by rcases hv with hq | hq <;> omega
      split at h
      · simp at h
        omega
      · split at h
        · simp at h
          rcases h with h | h <;> omega
        · split at h
          · simp at h
            rcases h with h | h | h <;> omega
          · simp at h
            rcases h with h | h | h | h <;> omega
    · exact ih b h

/-- Decoding inverts encoding on ASCII text (all that `json.dumps` with
`ensure_ascii=True` ever produces). -/
theorem utf8Decode_encode_ascii (s : List Char) (h : ∀ c ∈ s, c.toNat < 128) :
    utf8Decode (utf8Encode s) = some s := by
  induction s with
  | nil => rw [show utf8Encode [] = [] from rfl, utf8Decode_nil]
  | cons c cs ih =>
    have hc := h c (by simp)
    have he : utf8EncodeChar c = [c.toNat] := by rw [utf8EncodeChar]; simp [hc]
    have hstep : utf8DecodeStep c.toNat (utf8Encode cs) = some (c, 0) := by
      simp only [utf8DecodeStep]
      rw [if_pos hc, Char.ofNat_toNat]
    rw [utf8Encode, he, List.cons_append, List.nil_append, utf8Decode_cons, hstep]
    simp only [List.drop_zero, ih (fun x hx => h x (by simp [hx]))]

/-! ### base64 (`base64.b64encode` / `base64.b64decode`)

`b64encode` is the standard alphabet encoder.  `b64decode` (at its default
`validate=False`) is `binascii.a2b_base64`'s lenient scan: bytes outside
the alphabet are skipped, a pad (`=`, byte 61) closing a quad of two or
three data characters ends the decode and every remaining byte is ignored,
and leftover data characters at the end raise `binascii.Error`. -/

/-- Alphabet value to ASCII byte. -/
def b64EncByte (v : Nat) : Nat :=
  if v < 26 then 65 + v
  else if v < 52 then 97 + (v - 26)
  else if v < 62 then 48 + (v - 52)
  else if v = 62 then 43
  else 47

/-- ASCII byte to alphabet value; `none` for non-alphabet bytes. -/
def b64DecByte (b : Nat) : Option Nat :=
  if 65 ≤ b ∧ b ≤ 90 then some (b - 65)
  else if 97 ≤ b ∧ b ≤ 122 then some (b - 97 + 26)
  else if 48 ≤ b ∧ b ≤ 57 then some (b - 48 + 52)
  else if b = 43 then some 62
  else if b = 47 then some 63
  else none

/-- `base64.b64encode`: three bytes to four alphabet bytes, padded. -/
def b64encode : List Nat → List Nat
  | [] => []
  | [a] => [b64EncByte (a / 4), b64EncByte (a % 4 * 16), 61, 61]
  | [a, b] => [b64EncByte (a / 4), b64EncByte (a % 4 * 16 + b / 16), b64EncByte (b % 16 * 4), 61]
  | a :: b :: c :: rest =>
    b64EncByte (a / 4) :: b64EncByte (a % 4 * 16 + b / 16)
      :: b64EncByte (b % 16 * 4 + c / 64) :: b64EncByte (c % 64) :: b64encode rest

/-- The scan loop of `binascii.a2b_base64` in lenient mode: `quad` holds the
pending data-character values (at most three), `pads` the pad bytes seen
since the last data character. -/
def a2bLoop (quad : List Nat) (pads : Nat) : List Nat → Except Unit (List Nat)
  | [] => if quad = [] then .ok [] else .error ()
  | b :: rest =>
    if b = 61 then
      match quad with
      | [x, y] => if 1 ≤ pads then .ok [x * 4 + y / 16] else a2bLoop quad (pads + 1) rest
      | [x, y, z] => .ok [x * 4 + y / 16, y % 16 * 16 + z / 4]
      | _ => a2bLoop quad (pads + 1) rest
    else
      match b64DecByte b with
      | some v =>
        (match quad with
        | [x, y, z] =>
          (match a2bLoop [] 0 rest with
          | .ok out => .ok ((x * 4 + y / 16) :: (y % 16 * 16 + z / 4) :: (z % 4 * 64 + v) :: out)
          | .error e => .error e)
        | _ => a2bLoop (quad ++ [v]) 0 rest)
      | none => a2bLoop quad pads rest

/-- `base64.b64decode` at its defaults. -/
def b64decode (bs : List Nat) : Except Unit (List Nat) := a2bLoop [] 0 bs

theorem b64DecByte_encByte : ∀ v < 64, b64DecByte (b64EncByte v) = some v := by decide

theorem b64EncByte_ne_pad : ∀ v < 64, b64EncByte v ≠ 61 := by decide

/-- Lenient decoding inverts encoding. -/
theorem b64decode_encode : ∀ bs : List Nat, (∀ b ∈ bs, b < 256) →
    a2bLoop [] 0 (b64encode bs) = .ok bs
  | [], _ => by simp [b64encode, a2bLoop]
  | [a], h => by
    have ha := h a (by simp)
    have h1 : a / 4 < 64 := by omega
    have h2 : a % 4 * 16 < 64 := by omega
    have hp1 := b64EncByte_ne_pad _ h1
    have hp2 := b64EncByte_ne_pad _ h2
    have hd1 := b64DecByte_encByte _ h1
    have hd2 := b64DecByte_encByte _ h2
    simp only [b64encode, a2bLoop, hp1, hp2, hd1, hd2, List.nil_append,
      List.singleton_append, List.cons_append, if_false, reduceIte]
    norm_num
    omega
  | [a, b], h => by
    have ha := h a (by simp)
    have hb := h b (by simp)
    have h1 : a / 4 < 64 := by omega
    have h2 : a % 4 * 16 + b / 16 < 64 := by omega
    have h3 : b % 16 * 4 < 64 := by omega
    have hp1 := b64EncByte_ne_pad _ h1
    have hp2 := b64EncByte_ne_pad _ h2
    have hp3 := b64EncByte_ne_pad _ h3
    have hd1 := b64DecByte_encByte _ h1
    have hd2 := b64DecByte_encByte _ h2
    have hd3 := b64DecByte_encByte _ h3
    simp only [b64encode, a2bLoop, hp1, hp2, hp3, hd1, hd2, hd3, List.nil_append,
      List.singleton_append, List.cons_append, if_false, reduceIte]
    norm_num
    constructor
    · omega
    · omega
  | a :: b :: c :: rest, h => by
    have ha := h a (by simp)
    have hb := h b (by simp)
    have hc := h c (by simp)
    have h1 : a / 4 < 64 := by omega
    have h2 : a % 4 * 16 + b / 16 < 64 := by omega
    have h3 : b % 16 * 4 + c / 64 < 64 := by omega
    have h4 : c % 64 < 64 := by omega
    have hp1 := b64EncByte_ne_pad _ h1
    have hp2 := b64EncByte_ne_pad _ h2
    have hp3 := b64EncByte_ne_pad _ h3
    have hp4 := b64EncByte_ne_pad _ h4
    have hd1 := b64DecByte_encByte _ h1
    have hd2 := b64DecByte_encByte _ h2
    have hd3 := b64DecByte_encByte _ h3
    have hd4 := b64DecByte_encByte _ h4
    have ih := b64decode_encode rest (fun x hx => h x (by simp [hx]))
    simp only [b64encode, a2bLoop, hp1, hp2, hp3, hp4, hd1, hd2, hd3, hd4,
      List.nil_append, List.singleton_append, List.cons_append, ih,
      Except.ok.injEq, List.cons.injEq]
    norm_num
    refine ⟨by omega, by omega, by omega⟩

/-! ### json.dumps output is ASCII

`ensure_ascii=True` guarantees every produced character is ASCII, so the
UTF-8 leg of the pipeline is the identity byte map. -/

/-- Every character of the list is ASCII. -/
def asciiOnly (l : List Char) : Bool := l.all (fun c => c.toNat < 128)

theorem asciiOnly_append (l1 l2 : List Char) :
    asciiOnly (l1 ++ l2) = (asciiOnly l1 && asciiOnly l2) := by
  simp [asciiOnly]

theorem hexChar_lt : ∀ d < 16, (hexChar d).toNat < 128 := by decide

theorem decChar_lt : ∀ d < 10, (decChar d).toNat < 128 := by decide

theorem asciiOnly_hex4 (n : Nat) : asciiOnly (hex4Chars n) = true := by
  simp only [asciiOnly, hex4Chars, List.all_cons, List.all_nil, Bool.and_true,
    Bool.and_eq_true, decide_eq_true_eq]
  refine ⟨?_, ?_, ?_, ?_⟩ <;> exact hexChar_lt _ (Nat.mod_lt _ (by omega))

theorem asciiOnly_cons (c : Char) (l : List Char) :
    asciiOnly (c :: l) = (decide (c.toNat < 128) && asciiOnly l) := rfl

theorem asciiOnly_escU (n : Nat) : asciiOnly ('\\' :: 'u' :: hex4Chars n) = true := by
  rw [asciiOnly_cons, asciiOnly_cons, asciiOnly_hex4]
  decide

theorem asciiOnly_escapeChar (c : Char) : asciiOnly (escapeChar c) = true := by
  rw [escapeChar]
  repeat' split
  · decide
  · decide
  · decide
  · decide
  · decide
  · decide
  · decide
  · simp only [asciiOnly, List.all_cons, List.all_nil, Bool.and_true, decide_eq_true_eq]
    omega
  · exact asciiOnly_escU _
  · rw [asciiOnly_append, asciiOnly_escU, asciiOnly_escU]
    decide

theorem asciiOnly_escBody (s : List Char) : asciiOnly (escBody s) = true := by
  induction s with
  | nil => decide
  | cons c cs ih =>
    rw [escBody, asciiOnly_append, asciiOnly_escapeChar c, ih]
    decide

theorem asciiOnly_quoteStr (s : List Char) : asciiOnly (quoteStr s) = true := by
  rw [quoteStr, asciiOnly_cons, asciiOnly_escBody]
  decide

theorem asciiOnly_decDigits (n : Nat) : asciiOnly (decDigits n) = true := by
  induction n using Nat.strong_induction_on with
  | _ n ih =>
    rw [decDigits]
    by_cases h : n < 10
    · simp only [if_pos h, asciiOnly, List.all_cons, List.all_nil, Bool.and_true,
        decide_eq_true_eq]
      exact decChar_lt n h
    · rw [if_neg h, asciiOnly_append, ih (n / 10) (Nat.div_lt_self (by omega) (by omega))]
      simp only [asciiOnly, List.all_cons, List.all_nil, Bool.and_true, Bool.true_and,
        decide_eq_true_eq]
      exact decChar_lt _ (Nat.mod_lt _ (by omega))

theorem asciiOnly_intChars (i : Int) : asciiOnly (intChars i) = true := by
  cases i with
  | ofNat n => exact asciiOnly_decDigits n
  | negSucc m =>
    rw [show intChars (Int.negSucc m) = '-' :: decDigits (m + 1) from rfl, asciiOnly_cons,
      asciiOnly_decDigits]
    decide

mutual
theorem asciiOnly_dumpVal : ∀ v : JValue, asciiOnly (dumpVal v) = true
  | .jnull => by decide
  | .jbool true => by decide
  | .jbool false => by decide
  | .jnum i => asciiOnly_intChars i
  | .jstr s => asciiOnly_quoteStr s
  | .jarr [] => by decide
  | .jarr (x :: xs) => by
    rw [show dumpVal (.jarr (x :: xs)) = '[' :: (dumpVal x ++ dumpMoreItems xs ++ [']'])
      from rfl]
    simp only [asciiOnly_cons, asciiOnly_append, asciiOnly_dumpVal x,
      asciiOnly_dumpMoreItems xs]
    decide
  | .jobj [] => by decide
  | .jobj (e :: es) => by
    rw [show dumpVal (.jobj (e :: es))
      = '{' :: (quoteStr e.1 ++ ':' :: ' ' :: dumpVal e.2 ++ dumpMoreEntries es ++ ['}'])
      from rfl]
    simp only [asciiOnly_cons, asciiOnly_append, asciiOnly_quoteStr e.1,
      asciiOnly_dumpVal e.2, asciiOnly_dumpMoreEntries es]
    decide
  termination_by v => sizeOf v
  decreasing_by
    all_goals simp_wf
    all_goals try omega
    all_goals cases e with
      | mk k2 v2 =>
        simp
        omega

theorem asciiOnly_dumpMoreItems : ∀ xs : List JValue, asciiOnly (dumpMoreItems xs) = true
  | [] => by decide
  | x :: xs => by
    rw [show dumpMoreItems (x :: xs) = ',' :: ' ' :: dumpVal x ++ dumpMoreItems xs from rfl]
    simp only [asciiOnly_cons, asciiOnly_append, asciiOnly_dumpVal x,
      asciiOnly_dumpMoreItems xs]
    decide
  termination_by xs => sizeOf xs

theorem asciiOnly_dumpMoreEntries :
    ∀ es : List (List Char × JValue), asciiOnly (dumpMoreEntries es) = true
  | [] => by decide
  | e :: es => by
    rw [show dumpMoreEntries (e :: es)
      = ',' :: ' ' :: quoteStr e.1 ++ ':' :: ' ' :: dumpVal e.2 ++ dumpMoreEntries es
      from rfl]
    simp only [asciiOnly_cons, asciiOnly_append, asciiOnly_quoteStr e.1,
      asciiOnly_dumpVal e.2, asciiOnly_dumpMoreEntries es]
    decide
  termination_by es => sizeOf es
  decreasing_by
    all_goals simp_wf
    all_goals cases e with
      | mk k2 v2 =>
        simp
        omega
end

theorem dumpVal_ascii (v : JValue) : ∀ c ∈ dumpVal v, c.toNat < 128 := by
  have h := asciiOnly_dumpVal v
  simp only [asciiOnly, List.all_eq_true, decide_eq_true_eq] at h
  exact h

/-! ### Python exceptions and the configuration pipeline

The exceptions the embedded code can signal.  `consistencyError` is the
recoverable validation error the specification asks for; the source never
raises it (its `update` uses bare `assert`, i.e. `assertionError`). -/

inductive PyError where
  | assertionError
  | consistencyError
  | attributeError
  | binasciiError
  | unicodeDecodeError
  | jsonDecodeError
deriving DecidableEq

theorem b64decode_b64encode (bs : List Nat) (h : ∀ b ∈ bs, b < 256) :
    b64decode (b64encode bs) = .ok bs := b64decode_encode bs h

/-- `base64.b64encode(json.dumps(configuration).encode("utf-8"))`:
the encoding used by `StackComponentSchema.from_create_model`
(component_schemas.py lines 97-99) and `from_update_model` (lines 118-120). -/
def encodeConfiguration (cfg : JValue) : List Nat :=
  b64encode (utf8Encode (dumpVal cfg))

/-- `json.loads(base64.b64decode(configuration).decode())`: the decoding
used by `StackComponentSchema.to_model` (component_schemas.py lines
137-139), each failure mapped to the Python exception that raises it. -/
def decodeConfiguration (blob : List Nat) : Except PyError JValue :=
  match b64decode blob with
  | .error _ => .error .binasciiError
  | .ok bs =>
    match utf8Decode bs with
    | none => .error .unicodeDecodeError
    | some s =>
      match jsonLoads s with
      | none => .error .jsonDecodeError
      | some v => .ok v

/-- The full pipeline round-trips: decoding an encoded configuration gives
the configuration back. -/
theorem decodeConfiguration_encodeConfiguration (cfg : JValue) :
    decodeConfiguration (encodeConfiguration cfg) = .ok cfg := by
  rw [decodeConfiguration, encodeConfiguration, b64decode_b64encode _ (utf8Encode_lt _)]
  simp only [utf8Decode_encode_ascii _ (dumpVal_ascii cfg), jsonLoads_dumpVal]

/-! ### Domain models

The `zenml.models` classes are not among the reviewed sources; their fields
are reconstructed from the schema code that reads and writes them (every
field below is referenced by `from_create_model`/`to_model` in the reviewed
modules). -/

/-- UUIDs are opaque tokens. -/
abbrev UUID := Nat

/-- Timestamps are opaque tokens; `datetime.now()` becomes an explicit
`now` argument. -/
abbrev DateTime := Nat

/-- Modelled from the spec: `zenml.enums.StackComponentType`, the
"enumerated component type" of a StackComponent; its defining module is
outside the reviewed sources. -/
inductive StackComponentType where
  | orchestrator
  | artifactStore
  | containerRegistry
  | stepOperator
  | modelDeployer
  | secretsManager
  | experimentTracker
  | alerter
  | featureStore
  | dataValidator
deriving DecidableEq

/-- `zenml.models.ComponentModel`, as read and written by
component_schemas.py. -/
structure ComponentModel where
  id : UUID
  name : String
  type : StackComponentType
  flavor : String
  user : Option UUID
  project : UUID
  is_shared : Bool
  configuration : JValue
  created : DateTime
  updated : DateTime

/-- `zenml.models.UserModel`, as read and written by
user_management_schemas.py. -/
structure UserModel where
  id : UUID
  name : String
  full_name : String
  email : Option String
  email_opted_in : Option Bool
  active : Bool
  password : Option String
  activation_token : Option String
  created : DateTime
  updated : DateTime
deriving DecidableEq

/-- `zenml.models.ProjectModel`, as read and written by
project_schemas.py. -/
structure ProjectModel where
  id : UUID
  name : String
  description : String
  created : DateTime
  updated : DateTime
deriving DecidableEq

/-- `zenml.models.TeamModel`. -/
structure TeamModel where
  id : UUID
  name : String
  created : DateTime
  updated : DateTime
deriving DecidableEq

/-- `zenml.models.RoleModel`; permissions are the names granted via
`RolePermissionSchema` rows. -/
structure RoleModel where
  id : UUID
  name : String
  created : DateTime
  updated : DateTime
  permissions : List String
deriving DecidableEq

/-! ### StackComponentSchema (component_schemas.py) -/

/-- The `stack_component` table columns. -/
structure StackComponentSchema where
  id : UUID
  name : String
  is_shared : Bool
  type : StackComponentType
  flavor : String
  project_id : UUID
  user_id : Option UUID
  configuration : List Nat
  created : DateTime
  updated : DateTime
deriving DecidableEq

/-- `StackComponentSchema.from_create_model` (component_schemas.py lines
77-102): every scalar copied verbatim, the configuration serialized with
`json.dumps` then base64-encoded, `created`/`updated` taken from the
model. -/
def StackComponentSchema.from_create_model (component : ComponentModel) :
    StackComponentSchema :=
  { id := component.id
    name := component.name
    project_id := component.project
    user_id := component.user
    is_shared := component.is_shared
    type := component.type
    flavor := component.flavor
    configuration := encodeConfiguration component.configuration
    created := component.created
    updated := component.updated }

/-- `StackComponentSchema.from_update_model` (component_schemas.py lines
104-121): assigns `name`, `is_shared` and the re-encoded `configuration`,
and nothing else — in particular the `updated` column is left untouched. -/
def StackComponentSchema.from_update_model (self : StackComponentSchema)
    (component : ComponentModel) : StackComponentSchema :=
  { self with
    name := component.name
    is_shared := component.is_shared
    configuration := encodeConfiguration component.configuration }

/-- `StackComponentSchema.to_model` (component_schemas.py lines 123-142):
rebuilds the `ComponentModel`, decoding the stored configuration blob; a
blob the pipeline cannot decode raises the underlying Python exception. -/
def StackComponentSchema.to_model (self : StackComponentSchema) :
    Except PyError ComponentModel :=
  match decodeConfiguration self.configuration with
  | .error e => .error e
  | .ok cfg =>
    .ok { id := self.id
          name := self.name
          type := self.type
          flavor := self.flavor
          user := self.user_id
          project := self.project_id
          is_shared := self.is_shared
          configuration := cfg
          created := self.created
          updated := self.updated }

/-! ### UserSchema (user_management_schemas.py) -/

/-- The `user` table columns. -/
structure UserSchema where
  id : UUID
  name : String
  full_name : String
  email : Option String
  active : Bool
  password : Option String
  activation_token : Option String
  created : DateTime
  updated : DateTime
  email_opted_in : Option Bool
deriving DecidableEq

/-- `UserSchema.from_create_model` (user_management_schemas.py lines
100-117).  Only `id`, `name`, `full_name`, `active` and the two hashed
secrets are passed; `email` and `email_opted_in` fall to their nullable
column default (`None`) and `created`/`updated` to `datetime.now`.  The
hash helpers `get_hashed_password`/`get_hashed_activation_token` live on
the domain model outside the reviewed sources, so their results are taken
as arguments. -/
def UserSchema.from_create_model (now : DateTime)
    (hashedPassword hashedActivationToken : Option String) (model : UserModel) :
    UserSchema :=
  { id := model.id
    name := model.name
    full_name := model.full_name
    email := none
    active := model.active
    password := hashedPassword
    activation_token := hashedActivationToken
    created := now
    updated := now
    email_opted_in := none }

/-- `UserSchema.from_update_model` (user_management_schemas.py lines
119-134). -/
def UserSchema.from_update_model (now : DateTime)
    (hashedPassword hashedActivationToken : Option String) (self : UserSchema)
    (model : UserModel) : UserSchema :=
  { self with
    name := model.name
    full_name := model.full_name
    active := model.active
    password := hashedPassword
    activation_token := hashedActivationToken
    updated := now }

/-- `UserSchema.to_model` (user_management_schemas.py lines 136-153). -/
def UserSchema.to_model (self : UserSchema) : UserModel :=
  { id := self.id
    name := self.name
    full_name := self.full_name
    email := self.email
    email_opted_in := self.email_opted_in
    active := self.active
    password := self.password
    activation_token := self.activation_token
    created := self.created
    updated := self.updated }

/-! ### ProjectSchema (project_schemas.py) -/

/-- The `project` table columns (`NamedSchemaMixin` supplies `id`, `name`,
`created`, `updated`; base_schemas.py is outside the reviewed sources and
those four columns are modelled from the spec's "name (unique),
description, creation/update timestamps"). -/
structure ProjectSchema where
  id : UUID
  name : String
  description : String
  created : DateTime
  updated : DateTime
deriving DecidableEq

/-- `ProjectSchema.from_create_model` (project_schemas.py lines 64-76):
only `id`, `name` and `description` are passed; the timestamps fall to
their `datetime.now` column defaults. -/
def ProjectSchema.from_create_model (now : DateTime) (project : ProjectModel) :
    ProjectSchema :=
  { id := project.id
    name := project.name
    description := project.description
    created := now
    updated := now }

/-- `ProjectSchema.from_update_model` (project_schemas.py lines 78-90). -/
def ProjectSchema.from_update_model (now : DateTime) (self : ProjectSchema)
    (model : ProjectModel) : ProjectSchema :=
  { self with
    name := model.name
    description := model.description
    updated := now }

/-- `ProjectSchema.to_model` (project_schemas.py lines 92-98):
`ProjectModel.parse_obj(self)` copies the matching fields. -/
def ProjectSchema.to_model (self : ProjectSchema) : ProjectModel :=
  { id := self.id
    name := self.name
    description := self.description
    created := self.created
    updated := self.updated }

/-! ### TeamSchema and RoleSchema (user_management_schemas.py) -/

/-- The `team` table columns. -/
structure TeamSchema where
  id : UUID
  name : String
  created : DateTime
  updated : DateTime
deriving DecidableEq

/-- `TeamSchema.from_create_model` (lines 173-183). -/
def TeamSchema.from_create_model (now : DateTime) (model : TeamModel) : TeamSchema :=
  { id := model.id, name := model.name, created := now, updated := now }

/-- `TeamSchema.from_update_model` (lines 185-196). -/
def TeamSchema.from_update_model (now : DateTime) (self : TeamSchema)
    (model : TeamModel) : TeamSchema :=
  { self with name := model.name, updated := now }

/-- `TeamSchema.to_model` (lines 198-209). -/
def TeamSchema.to_model (self : TeamSchema) : TeamModel :=
  { id := self.id, name := self.name, created := self.created, updated := self.updated }

/-- The `role_permission` table: composite key (permission name, role id). -/
structure RolePermissionSchema where
  name : String
  role_id : UUID
deriving DecidableEq

/-- The `role` table columns. -/
structure RoleSchema where
  id : UUID
  name : String
  created : DateTime
  updated : DateTime
deriving DecidableEq

/-- `RoleSchema.from_create_model` (lines 231-241). -/
def RoleSchema.from_create_model (now : DateTime) (model : RoleModel) : RoleSchema :=
  { id := model.id, name := model.name, created := now, updated := now }

/-- `RoleSchema.from_update_model` (lines 243-254). -/
def RoleSchema.from_update_model (now : DateTime) (self : RoleSchema)
    (model : RoleModel) : RoleSchema :=
  { self with name := model.name, updated := now }

/-- `RoleSchema.to_model` (lines 256-268); the resolved permission rows are
passed in. -/
def RoleSchema.to_model (self : RoleSchema) (permissions : List RolePermissionSchema) :
    RoleModel :=
  { id := self.id
    name := self.name
    created := self.created
    updated := self.updated
    permissions := permissions.map (fun p => p.name) }

/-! ### Role assignment rows (user_management_schemas.py) -/

/-- The `user_role_assignment` table columns (lines 271-308). -/
structure UserRoleAssignmentSchema where
  id : UUID
  role_id : UUID
  user_id : UUID
  project_id : Option UUID
  created : DateTime
  updated : DateTime
deriving DecidableEq

/-- The `team_role_assignment` table columns (lines 326-363). -/
structure TeamRoleAssignmentSchema where
  id : UUID
  role_id : UUID
  team_id : UUID
  project_id : Option UUID
  created : DateTime
  updated : DateTime
deriving DecidableEq

/-! ### StackSchema (stack_schemas.py) -/

/-- The `stack` table columns (lines 61-91); the many-to-many component
association lives in the `stack_composition` join table. -/
structure StackSchema where
  id : UUID
  created : DateTime
  updated : DateTime
  name : String
  is_shared : Bool
  project_id : UUID
  user_id : Option UUID
deriving DecidableEq

/-- A `stack_composition` join row (lines 33-58): composite key of stack
and component, both legs `ondelete="CASCADE"`. -/
structure StackCompositionSchema where
  stack_id : UUID
  component_id : UUID
deriving DecidableEq

/-- `zenml.models.StackUpdateModel`: the partial update the caller hands to
`StackSchema.update`.  The class is outside the reviewed sources; its
fields are those the update loop handles (`components`, `user`, `project`,
and the scalar columns reached by `setattr`), each `none` when the caller
left it unset (`exclude_unset`). -/
structure StackUpdateModel where
  name : Option String
  is_shared : Option Bool
  user : Option UUID
  project : Option UUID
  components : Option (List UUID)
deriving DecidableEq

/-- `StackSchema.update` (stack_schemas.py lines 99-118): for each field
the caller set, `components` replaces the association with the passed
component rows (the model value itself is unused), `user` and `project`
are asserted equal to the stored reference — a bare Python `assert`, so a
mismatch raises `AssertionError` — and the remaining scalars are assigned
via `setattr`; finally `updated` is re-stamped.  The row and the resulting
association are returned. -/
def StackSchema.update (now : DateTime) (self : StackSchema) (assoc : List UUID)
    (stack_update : StackUpdateModel) (components : List StackComponentSchema) :
    Except PyError (StackSchema × List UUID) :=
  if stack_update.user.all (fun u => self.user_id == some u) then
    if stack_update.project.all (fun p => self.project_id == p) then
      .ok
        ({ self with
            name := stack_update.name.getD self.name
            is_shared := stack_update.is_shared.getD self.is_shared
            updated := now },
          match stack_update.components with
          | some _ => components.map (fun c => c.id)
          | none => assoc)
    else .error .assertionError
  else .error .assertionError

/-- The hydrated stack model that `StackSchema.to_model` builds; the
`components` field is the Python dict, held as its key/value items in
insertion order. -/
structure StackResponseModel where
  id : UUID
  name : String
  user : UserModel
  project : ProjectModel
  is_shared : Bool
  components : List (StackComponentType × List ComponentModel)
  created : DateTime
  updated : DateTime

/-- Python dict assignment: an existing key keeps its position and takes
the new value, a new key is appended. -/
def dictInsert (d : List (StackComponentType × List ComponentModel))
    (k : StackComponentType) (v : List ComponentModel) :
    List (StackComponentType × List ComponentModel) :=
  match d with
  | [] => [(k, v)]
  | (k2, v2) :: rest => if k2 = k then (k, v) :: rest else (k2, v2) :: dictInsert rest k v

/-- `{c.type: [c.to_model()] for c in self.components}` (stack_schemas.py
line 132): each associated component is decoded and filed under its type
as a singleton list; a later component of the same type overwrites the
earlier entry. -/
def buildComponentsDict (acc : List (StackComponentType × List ComponentModel)) :
    List StackComponentSchema →
    Except PyError (List (StackComponentType × List ComponentModel))
  | [] => .ok acc
  | c :: rest =>
    match c.to_model with
    | .error e => .error e
    | .ok m => buildComponentsDict (dictInsert acc c.type [m]) rest

/-- `StackSchema.to_model` (stack_schemas.py lines 120-135).  The resolved
relationship attributes are passed in: `user` is the row the (nullable)
`user_id` refers to — when it is `NULL` the schema's unconditional
`self.user.to_model()` dereferences `None` and raises `AttributeError` —
`project` the owning project row, and `components` the rows currently
joined through `stack_composition`. -/
def StackSchema.to_model (self : StackSchema) (user : Option UserSchema)
    (project : ProjectSchema) (components : List StackComponentSchema) :
    Except PyError StackResponseModel :=
  match user with
  | none => .error .attributeError
  | some u =>
    match buildComponentsDict [] components with
    | .error e => .error e
    | .ok d =>
      .ok { id := self.id
            name := self.name
            user := u.to_model
            project := project.to_model
            is_shared := self.is_shared
            components := d
            created := self.created
            updated := self.updated }

/-! ### Referential actions and the deletion model

`build_foreign_key_field` (schema_utils.py, outside the reviewed sources)
attaches the `ondelete` action string of each call site to the generated
foreign-key column; the constants below record, per foreign key, the
action declared at its call site. -/

/-- The two referential actions the call sites use. -/
inductive OnDelete where
  | cascade
  | setNull
deriving DecidableEq

/-- stack_schemas.py lines 73-80: `stack.project_id`, `ondelete="CASCADE"`. -/
def stack_project_ondelete : OnDelete := .cascade

/-- stack_schemas.py lines 83-90: `stack.user_id`, `ondelete="SET NULL"`. -/
def stack_user_ondelete : OnDelete := .setNull

/-- component_schemas.py lines 48-55: `stack_component.project_id`,
`ondelete="CASCADE"`. -/
def component_project_ondelete : OnDelete := .cascade

/-- component_schemas.py lines 58-65: `stack_component.user_id`,
`ondelete="SET NULL"`. -/
def component_user_ondelete : OnDelete := .setNull

/-- user_management_schemas.py lines 285-292: `user_role_assignment.user_id`,
`ondelete="CASCADE"`. -/
def ura_user_ondelete : OnDelete := .cascade

/-- user_management_schemas.py lines 293-300: `user_role_assignment.project_id`,
`ondelete="CASCADE"` (nullable). -/
def ura_project_ondelete : OnDelete := .cascade

/-- user_management_schemas.py lines 348-355: `team_role_assignment.project_id`,
`ondelete="CASCADE"` (nullable). -/
def tra_project_ondelete : OnDelete := .cascade

/-- Modelled from the spec: flavor_schemas.py is outside the reviewed
sources; per the spec's deletion-policy table a Flavor row follows its
Project with CASCADE and its User with SET NULL (corroborated by the
`cascade="delete"` relationship in project_schemas.py line 54 and the
plain relationship in user_management_schemas.py line 90). -/
def flavor_project_ondelete : OnDelete := .cascade

/-- Modelled from the spec: `flavor.user_id` is SET NULL. -/
def flavor_user_ondelete : OnDelete := .setNull

/-- Modelled from the spec: pipeline_schemas.py is outside the reviewed
sources; `pipeline.project_id` is CASCADE per the spec's table. -/
def pipeline_project_ondelete : OnDelete := .cascade

/-- Modelled from the spec: `pipeline.user_id` is SET NULL. -/
def pipeline_user_ondelete : OnDelete := .setNull

/-- Modelled from the spec: pipeline_run_schemas.py is outside the
reviewed sources; `pipeline_run.project_id` is CASCADE per the spec's
table. -/
def run_project_ondelete : OnDelete := .cascade

/-- Modelled from the spec: `pipeline_run.user_id` is SET NULL. -/
def run_user_ondelete : OnDelete := .setNull

/-- Modelled from the spec: a Flavor row's key and its two parent
references (flavor_schemas.py is outside the reviewed sources). -/
structure FlavorSchema where
  id : UUID
  project_id : UUID
  user_id : Option UUID
deriving DecidableEq

/-- Modelled from the spec: a Pipeline row's key and parent references. -/
structure PipelineSchema where
  id : UUID
  project_id : UUID
  user_id : Option UUID
deriving DecidableEq

/-- Modelled from the spec: a PipelineRun row's key and parent
references. -/
structure PipelineRunSchema where
  id : UUID
  project_id : UUID
  user_id : Option UUID
deriving DecidableEq

/-- What a referential action does to the rows of one child table when a
parent row is deleted: CASCADE drops every row whose reference hits the
deleted key, SET NULL keeps the row and clears the reference. -/
def applyOnDelete {R : Type} (policy : OnDelete) (ref : R → Option UUID)
    (clear : R → R) (target : UUID) (rows : List R) : List R :=
  match policy with
  | .cascade => rows.filter (fun r => ref r ≠ some target)
  | .setNull => rows.map (fun r => if ref r = some target then clear r else r)

/-- The table state the deletion claims quantify over. -/
structure Database where
  projects : List ProjectSchema
  users : List UserSchema
  stackRows : List StackSchema
  components : List StackComponentSchema
  flavors : List FlavorSchema
  pipelines : List PipelineSchema
  runs : List PipelineRunSchema
  userRoleAssignments : List UserRoleAssignmentSchema
  teamRoleAssignments : List TeamRoleAssignmentSchema

/-- Deleting a Project row: each child table is transformed by the
referential action its `project_id` foreign key declares. -/
def deleteProject (db : Database) (pid : UUID) : Database :=
  { db with
    projects := db.projects.filter (fun p => p.id ≠ pid)
    stackRows := applyOnDelete stack_project_ondelete
      (fun s => some s.project_id) (fun s => s) pid db.stackRows
    components := applyOnDelete component_project_ondelete
      (fun c => some c.project_id) (fun c => c) pid db.components
    flavors := applyOnDelete flavor_project_ondelete
      (fun f => some f.project_id) (fun f => f) pid db.flavors
    pipelines := applyOnDelete pipeline_project_ondelete
      (fun p => some p.project_id) (fun p => p) pid db.pipelines
    runs := applyOnDelete run_project_ondelete
      (fun r => some r.project_id) (fun r => r) pid db.runs
    userRoleAssignments := applyOnDelete ura_project_ondelete
      (fun a => a.project_id) (fun a => a) pid db.userRoleAssignments
    teamRoleAssignments := applyOnDelete tra_project_ondelete
      (fun a => a.project_id) (fun a => a) pid db.teamRoleAssignments }

/-- Deleting a User row: each child table is transformed by the
referential action its `user_id` foreign key declares. -/
def deleteUser (db : Database) (uid : UUID) : Database :=
  { db with
    users := db.users.filter (fun u => u.id ≠ uid)
    stackRows := applyOnDelete stack_user_ondelete
      (fun s => s.user_id) (fun s => { s with user_id := none }) uid db.stackRows
    components := applyOnDelete component_user_ondelete
      (fun c => c.user_id) (fun c => { c with user_id := none }) uid db.components
    flavors := applyOnDelete flavor_user_ondelete
      (fun f => f.user_id) (fun f => { f with user_id := none }) uid db.flavors
    pipelines := applyOnDelete pipeline_user_ondelete
      (fun p => p.user_id) (fun p => { p with user_id := none }) uid db.pipelines
    runs := applyOnDelete run_user_ondelete
      (fun r => r.user_id) (fun r => { r with user_id := none }) uid db.runs
    userRoleAssignments := applyOnDelete ura_user_ondelete
      (fun a => some a.user_id) (fun a => a) uid db.userRoleAssignments }

/-- Resolving a nullable `user_id` reference against the user table: the
ORM's `self.user` relationship attribute, `None` when the key is null. -/
def resolveUser (db : Database) : Option UUID → Option UserSchema
  | none => none
  | some uid => db.users.find? (fun u => u.id == uid)

/-! ### Consequences of the referential actions -/

/-- After a CASCADE, no surviving row references the deleted key. -/
theorem applyOnDelete_cascade_not_mem {R : Type} (ref : R → Option UUID)
    (clear : R → R) (target : UUID) (rows : List R) (r : R)
    (h : r ∈ applyOnDelete .cascade ref clear target rows) :
    ref r ≠ some target := by
  simp only [applyOnDelete, List.mem_filter] at h
  simpa using h.2

/-- A CASCADE keeps every row that does not reference the deleted key. -/
theorem applyOnDelete_cascade_mem {R : Type} (ref : R → Option UUID)
    (clear : R → R) (target : UUID) (rows : List R) (r : R) (h : r ∈ rows)
    (h2 : ref r ≠ some target) :
    r ∈ applyOnDelete .cascade ref clear target rows := by
  simp only [applyOnDelete, List.mem_filter]
  exact ⟨h, by simpa using h2⟩

/-- A SET NULL keeps every row, clearing the reference where it hit. -/
theorem applyOnDelete_setNull_mem {R : Type} (ref : R → Option UUID)
    (clear : R → R) (target : UUID) (rows : List R) (r : R) (h : r ∈ rows) :
    (if ref r = some target then clear r else r) ∈
      applyOnDelete .setNull ref clear target rows := by
  simp only [applyOnDelete]
  exact List.mem_map_of_mem _ h

/-- A SET NULL drops no row. -/
theorem applyOnDelete_setNull_length {R : Type} (ref : R → Option UUID)
    (clear : R → R) (target : UUID) (rows : List R) :
    (applyOnDelete .setNull ref clear target rows).length = rows.length :=
  List.length_map _ _

/-! ### The shape of the components dict -/

/-- Looking a type up in the components dict. -/
def lookupType (t : StackComponentType) :
    List (StackComponentType × List ComponentModel) → Option (List ComponentModel)
  | [] => none
  | (k, v) :: rest => if k = t then some v else lookupType t rest

/-- The last associated component of a given type, if any. -/
def lastOfType (t : StackComponentType) :
    List StackComponentSchema → Option StackComponentSchema
  | [] => none
  | c :: rest =>
    match lastOfType t rest with
    | some c2 => some c2
    | none => if c.type = t then some c else none

/-- `dictInsert` changes the dict at exactly the inserted key. -/
theorem lookupType_dictInsert (t k : StackComponentType) (v : List ComponentModel)
    (d : List (StackComponentType × List ComponentModel)) :
    lookupType t (dictInsert d k v) = if k = t then some v else lookupType t d := by
  induction d with
  | nil => simp [dictInsert, lookupType]
  | cons e rest ih =>
    obtain ⟨k2, v2⟩ := e
    by_cases h2 : k2 = k
    · subst h2
      by_cases hkt : k2 = t <;> simp [dictInsert, lookupType, hkt]
    · by_cases h3 : k2 = t
      · subst h3
        have hkt : ¬k = k2 := fun h => h2 h.symm
        simp [dictInsert, lookupType, h2, hkt]
      · simp [dictInsert, lookupType, h2, h3, ih]

/-- What one pass of the dict comprehension leaves at a key: the model of
the last component of that type, or whatever the accumulator held. -/
theorem buildComponentsDict_lookup (t : StackComponentType)
    (l : List StackComponentSchema)
    (acc d : List (StackComponentType × List ComponentModel))
    (h : buildComponentsDict acc l = .ok d) :
    (lastOfType t l = none → lookupType t d = lookupType t acc) ∧
    (∀ c, lastOfType t l = some c →
      ∃ m, c.to_model = .ok m ∧ lookupType t d = some [m]) := by
  induction l generalizing acc with
  | nil =>
    simp only [buildComponentsDict, Except.ok.injEq] at h
    subst h
    exact ⟨fun _ => rfl, fun c hc => by simp [lastOfType] at hc⟩
  | cons c rest ih =>
    simp only [buildComponentsDict] at h
    rcases hm : c.to_model with e | m
    · rw [hm] at h
      exact absurd h (by simp)
    · rw [hm] at h
      have ih2 := ih (dictInsert acc c.type [m]) h
      constructor
      · intro hnone
        simp only [lastOfType] at hnone
        rcases hlast : lastOfType t rest with - | c2
        · rw [hlast] at hnone
          by_cases hct : c.type = t
          · rw [if_pos hct] at hnone
            exact absurd hnone (by simp)
          · rw [ih2.1 hlast, lookupType_dictInsert, if_neg hct]
        · rw [hlast] at hnone
          exact absurd hnone (by simp)
      · intro c2 hc2
        simp only [lastOfType] at hc2
        rcases hlast : lastOfType t rest with - | c3
        · rw [hlast] at hc2
          by_cases hct : c.type = t
          · rw [if_pos hct] at hc2
            have hcc : c = c2 := by simpa using hc2
            subst hcc
            refine ⟨m, hm, ?_⟩
            rw [ih2.1 hlast, lookupType_dictInsert, if_pos hct]
          · rw [if_neg hct] at hc2
            exact absurd hc2 (by simp)
        · rw [hlast] at hc2
          have hcc : c3 = c2 := by simpa using hc2
          exact hcc ▸ ih2.2 c3 hlast

/-! ### The spec's notion of a valid stored blob

Written from the spec's words ("valid base64-encoded"), for comparison
with the decoder the code actually uses: canonical base64 text has a
length that is a multiple of four and consists of alphabet bytes followed
by at most two padding bytes. -/

/-- A byte of the base64 alphabet. -/
def isB64AlphabetByte (b : Nat) : Bool :=
  (65 ≤ b && b ≤ 90) || (97 ≤ b && b ≤ 122) || (48 ≤ b && b ≤ 57) ||
    b == 43 || b == 47

/-- Canonical ("strict") base64 text, per the spec's words. -/
def specStrictBase64 (bs : List Nat) : Bool :=
  decide (bs.length % 4 = 0) &&
    (decide ((bs.reverse.takeWhile (fun b => b == 61)).length ≤ 2) &&
      (bs.take (bs.length - (bs.reverse.takeWhile (fun b => b == 61)).length)).all
        isB64AlphabetByte)

/-! ### Example rows -/

/-- An example user row. -/
def userEx : UserSchema :=
  { id := 7, name := "alice", full_name := "Alice", email := some "a"
    active := true, password := some "ph", activation_token := none
    created := 1, updated := 2, email_opted_in := some true }

/-- An example project row. -/
def projectEx : ProjectSchema :=
  { id := 3, name := "proj", description := "d", created := 1, updated := 1 }

/-- An example stack row owned by `userEx` in `projectEx`. -/
def stackEx : StackSchema :=
  { id := 10, created := 1, updated := 1, name := "stk", is_shared := false
    project_id := 3, user_id := some 7 }

/-- An example orchestrator component with an empty configuration. -/
def compEx1 : StackComponentSchema :=
  { id := 21, name := "c1", is_shared := false, type := .orchestrator
    flavor := "local", project_id := 3, user_id := some 7
    configuration := encodeConfiguration (.jobj []), created := 1, updated := 1 }

/-- A second orchestrator component on the same stack. -/
def compEx2 : StackComponentSchema :=
  { compEx1 with id := 22, name := "c2" }

/-- The empty partial update. -/
def su0 : StackUpdateModel :=
  { name := none, is_shared := none, user := none, project := none
    components := none }

/-- A partial update that tries to reassign the owner. -/
def suReassign : StackUpdateModel :=
  { su0 with user := some 8 }

/-- An example database touching every table. -/
def dbEx : Database :=
  { projects := [projectEx, { projectEx with id := 4, name := "other" }]
    users := [userEx]
    stackRows := [stackEx, { stackEx with id := 11, project_id := 4, user_id := none }]
    components := [compEx1]
    flavors := [{ id := 31, project_id := 3, user_id := some 7 }]
    pipelines := [{ id := 41, project_id := 3, user_id := none }]
    runs := [{ id := 51, project_id := 3, user_id := some 7 }]
    userRoleAssignments :=
      [{ id := 61, role_id := 1, user_id := 7, project_id := some 3
         created := 1, updated := 1 }]
    teamRoleAssignments :=
      [{ id := 71, role_id := 1, team_id := 8, project_id := some 3
         created := 1, updated := 1 }] }

/-! ### The claims -/

/-- C1: deleting a Project row leaves zero remaining rows in Stack,
StackComponent, Flavor, Pipeline, PipelineRun, UserRoleAssignment and
TeamRoleAssignment that referenced that project — the declared deletion
policy of every child of Project is CASCADE. -/
theorem project_delete_cascades (db : Database) (pid : UUID) :
    (∀ s ∈ (deleteProject db pid).stackRows, s.project_id ≠ pid) ∧
    (∀ c ∈ (deleteProject db pid).components, c.project_id ≠ pid) ∧
    (∀ f ∈ (deleteProject db pid).flavors, f.project_id ≠ pid) ∧
    (∀ p ∈ (deleteProject db pid).pipelines, p.project_id ≠ pid) ∧
    (∀ r ∈ (deleteProject db pid).runs, r.project_id ≠ pid) ∧
    (∀ a ∈ (deleteProject db pid).userRoleAssignments, a.project_id ≠ some pid) ∧
    (∀ a ∈ (deleteProject db pid).teamRoleAssignments, a.project_id ≠ some pid) := by
  refine ⟨fun s hs => ?_, fun c hc => ?_, fun f hf => ?_, fun p hp => ?_,
    fun r hr => ?_, fun a ha => ?_, fun a ha => ?_⟩
  · simpa using applyOnDelete_cascade_not_mem (fun s : StackSchema => some s.project_id)
      (fun s => s) pid db.stackRows s hs
  · simpa using applyOnDelete_cascade_not_mem (fun c : StackComponentSchema => some c.project_id)
      (fun c => c) pid db.components c hc
  · simpa using applyOnDelete_cascade_not_mem (fun f : FlavorSchema => some f.project_id)
      (fun f => f) pid db.flavors f hf
  · simpa using applyOnDelete_cascade_not_mem (fun p : PipelineSchema => some p.project_id)
      (fun p => p) pid db.pipelines p hp
  · simpa using applyOnDelete_cascade_not_mem (fun r : PipelineRunSchema => some r.project_id)
      (fun r => r) pid db.runs r hr
  · exact applyOnDelete_cascade_not_mem (fun a : UserRoleAssignmentSchema => a.project_id)
      (fun a => a) pid db.userRoleAssignments a ha
  · exact applyOnDelete_cascade_not_mem (fun a : TeamRoleAssignmentSchema => a.project_id)
      (fun a => a) pid db.teamRoleAssignments a ha

/-- The stack of `dbEx` that lives in the other project. -/
def stackEx11 : StackSchema :=
  { stackEx with id := 11, project_id := 4, user_id := none }

theorem project_delete_cascades_witness :
    stackEx11 ∈ (deleteProject dbEx 3).stackRows ∧ stackEx11.project_id ≠ 3 :=
  ⟨by decide, (project_delete_cascades dbEx 3).1 stackEx11 (by decide)⟩

/-- C2: the configuration codec of StackComponentSchema is the identity on
JSON-compatible configurations: decoding (b64decode, UTF-8 decode,
json.loads) the blob the schema stores (json.dumps, UTF-8 encode,
b64encode) for a dict-like configuration returns exactly that
configuration. -/
theorem configuration_roundtrip (cfg : JValue) (_h : cfg.dictLike = true) :
    decodeConfiguration (encodeConfiguration cfg) = .ok cfg :=
  decodeConfiguration_encodeConfiguration cfg

theorem configuration_roundtrip_witness :
    (JValue.jobj [(['k'], .jnum 1)]).dictLike = true ∧
      decodeConfiguration (encodeConfiguration (.jobj [(['k'], .jnum 1)])) =
        .ok (.jobj [(['k'], .jnum 1)]) :=
  ⟨by decide, configuration_roundtrip _ (by decide)⟩

/-- C3: deleting a User row keeps every Stack, StackComponent, Flavor,
Pipeline and PipelineRun row (none is dropped), clearing the user
reference of the rows that pointed at the deleted user, while every
UserRoleAssignment row of that user is deleted. -/
theorem user_delete_set_null_and_cascade (db : Database) (uid : UUID) :
    ((deleteUser db uid).stackRows.length = db.stackRows.length ∧
      ∀ s ∈ db.stackRows,
        (if s.user_id = some uid then { s with user_id := none } else s) ∈
          (deleteUser db uid).stackRows) ∧
    ((deleteUser db uid).components.length = db.components.length ∧
      ∀ c ∈ db.components,
        (if c.user_id = some uid then { c with user_id := none } else c) ∈
          (deleteUser db uid).components) ∧
    ((deleteUser db uid).flavors.length = db.flavors.length ∧
      ∀ f ∈ db.flavors,
        (if f.user_id = some uid then { f with user_id := none } else f) ∈
          (deleteUser db uid).flavors) ∧
    ((deleteUser db uid).pipelines.length = db.pipelines.length ∧
      ∀ p ∈ db.pipelines,
        (if p.user_id = some uid then { p with user_id := none } else p) ∈
          (deleteUser db uid).pipelines) ∧
    ((deleteUser db uid).runs.length = db.runs.length ∧
      ∀ r ∈ db.runs,
        (if r.user_id = some uid then { r with user_id := none } else r) ∈
          (deleteUser db uid).runs) ∧
    ((∀ a ∈ (deleteUser db uid).userRoleAssignments, a.user_id ≠ uid) ∧
      ∀ a ∈ db.userRoleAssignments, a.user_id ≠ uid →
        a ∈ (deleteUser db uid).userRoleAssignments) := by
  refine ⟨⟨?_, fun s hs => ?_⟩, ⟨?_, fun c hc => ?_⟩, ⟨?_, fun f hf => ?_⟩,
    ⟨?_, fun p hp => ?_⟩, ⟨?_, fun r hr => ?_⟩, fun a ha => ?_, fun a ha hne => ?_⟩
  · exact applyOnDelete_setNull_length (fun s : StackSchema => s.user_id)
      (fun s => { s with user_id := none }) uid db.stackRows
  · simpa using applyOnDelete_setNull_mem (fun s : StackSchema => s.user_id)
      (fun s => { s with user_id := none }) uid db.stackRows s hs
  · exact applyOnDelete_setNull_length (fun c : StackComponentSchema => c.user_id)
      (fun c => { c with user_id := none }) uid db.components
  · simpa using applyOnDelete_setNull_mem (fun c : StackComponentSchema => c.user_id)
      (fun c => { c with user_id := none }) uid db.components c hc
  · exact applyOnDelete_setNull_length (fun f : FlavorSchema => f.user_id)
      (fun f => { f with user_id := none }) uid db.flavors
  · simpa using applyOnDelete_setNull_mem (fun f : FlavorSchema => f.user_id)
      (fun f => { f with user_id := none }) uid db.flavors f hf
  · exact applyOnDelete_setNull_length (fun p : PipelineSchema => p.user_id)
      (fun p => { p with user_id := none }) uid db.pipelines
  · simpa using applyOnDelete_setNull_mem (fun p : PipelineSchema => p.user_id)
      (fun p => { p with user_id := none }) uid db.pipelines p hp
  · exact applyOnDelete_setNull_length (fun r : PipelineRunSchema => r.user_id)
      (fun r => { r with user_id := none }) uid db.runs
  · simpa using applyOnDelete_setNull_mem (fun r : PipelineRunSchema => r.user_id)
      (fun r => { r with user_id := none }) uid db.runs r hr
  · have h2 := applyOnDelete_cascade_not_mem (fun a : UserRoleAssignmentSchema => some a.user_id)
      (fun a => a) uid db.userRoleAssignments a ha
    simpa using h2
  · exact applyOnDelete_cascade_mem (fun a : UserRoleAssignmentSchema => some a.user_id)
      (fun a => a) uid db.userRoleAssignments a ha (by simpa using hne)

theorem user_delete_set_null_witness :
    stackEx ∈ dbEx.stackRows ∧
      (if stackEx.user_id = some 7 then { stackEx with user_id := none }
        else stackEx) ∈ (deleteUser dbEx 7).stackRows :=
  ⟨by decide, (user_delete_set_null_and_cascade dbEx 7).1.2 stackEx (by decide)⟩

/-- An example domain user with an email address. -/
def userModelEx : UserModel :=
  { id := 7, name := "alice", full_name := "Alice", email := some "a"
    email_opted_in := some true, active := true, password := some "pw"
    activation_token := none, created := 0, updated := 0 }

/-- C4 (amended): create-then-read reproduces every scalar field for
StackComponent (including the configuration), Project, Team and Role; for
User it reproduces name, full_name and active, but email and
email_opted_in do NOT survive — from_create_model never passes them, so
the rebuilt model carries null for both. -/
theorem create_read_roundtrip :
    (∀ c : ComponentModel,
      (StackComponentSchema.from_create_model c).to_model = .ok c) ∧
    (∀ (now : DateTime) (p : ProjectModel),
      (ProjectSchema.from_create_model now p).to_model =
        { p with created := now, updated := now }) ∧
    (∀ (now : DateTime) (t : TeamModel),
      (TeamSchema.from_create_model now t).to_model =
        { t with created := now, updated := now }) ∧
    (∀ (now : DateTime) (r : RoleModel) (ps : List RolePermissionSchema),
      ((RoleSchema.from_create_model now r).to_model ps).id = r.id ∧
      ((RoleSchema.from_create_model now r).to_model ps).name = r.name) ∧
    (∀ (now : DateTime) (hp hat : Option String) (m : UserModel),
      (UserSchema.from_create_model now hp hat m).to_model =
        { m with email := none, email_opted_in := none, password := hp
                 activation_token := hat, created := now, updated := now }) := by
  refine ⟨fun c => ?_, fun now p => rfl, fun now t => rfl,
    fun now r ps => ⟨rfl, rfl⟩, fun now hp hat m => rfl⟩
  simp only [StackComponentSchema.to_model, StackComponentSchema.from_create_model,
    decodeConfiguration_encodeConfiguration]

theorem create_read_user_counterexample :
    userModelEx.email = some "a" ∧ userModelEx.email_opted_in = some true ∧
      ((UserSchema.from_create_model 5 (some "h") none userModelEx).to_model).email
        = none ∧
      ((UserSchema.from_create_model 5 (some "h") none userModelEx).to_model).email_opted_in
        = none :=
  ⟨rfl, rfl, rfl, rfl⟩

/-- C5 (amended): when the caller sets user or project on a stack update to
a value differing from the stored reference, StackSchema.update fails by
raising AssertionError — the bare `assert` of the source, not a recoverable
ConsistencyError — and when the supplied values match the stored ones the
update succeeds. -/
theorem stack_update_immutable_assoc (now : DateTime) (self : StackSchema)
    (assoc : List UUID) (su : StackUpdateModel)
    (components : List StackComponentSchema) :
    (∀ u, su.user = some u → self.user_id ≠ some u →
      StackSchema.update now self assoc su components = .error .assertionError) ∧
    (su.user.all (fun u => self.user_id == some u) = true →
      ∀ p, su.project = some p → self.project_id ≠ p →
        StackSchema.update now self assoc su components = .error .assertionError) ∧
    (su.user.all (fun u => self.user_id == some u) = true →
      su.project.all (fun p => self.project_id == p) = true →
      ∃ s2 a2, StackSchema.update now self assoc su components = .ok (s2, a2)) := by
  refine ⟨fun u hu hne => ?_, fun hu p hp hne => ?_, fun hu hp => ?_⟩
  · have hfalse : su.user.all (fun u => self.user_id == some u) = false := by
      rw [hu]
      simpa using hne
    rw [StackSchema.update, hfalse]
    rfl
  · have hfalse : su.project.all (fun p => self.project_id == p) = false := by
      rw [hp]
      simpa using hne
    rw [StackSchema.update, hu, hfalse]
    rfl
  · rw [StackSchema.update, hu, hp]
    exact ⟨_, _, rfl⟩

theorem stack_update_immutable_assoc_witness :
    suReassign.user = some 8 ∧ stackEx.user_id ≠ some 8 ∧
      StackSchema.update 9 stackEx [] suReassign [] = .error .assertionError :=
  ⟨rfl, by decide,
    (stack_update_immutable_assoc 9 stackEx [] suReassign []).1 8 rfl (by decide)⟩

theorem stack_update_consistency_counterexample :
    StackSchema.update 9 stackEx [] suReassign [] = .error .assertionError ∧
      PyError.assertionError ≠ PyError.consistencyError :=
  ⟨rfl, by decide⟩

/-- C6 (amended): to_model succeeds on every blob the encoder produced,
returning the decoded configuration; a failing pipeline step surfaces as
the matching decode error — but leniency of b64decode means not every
non-base64 blob fails (see the counterexample). -/
theorem to_model_decodes_valid_blobs (self : StackComponentSchema) (cfg : JValue)
    (h : self.configuration = encodeConfiguration cfg) :
    self.to_model =
      .ok { id := self.id, name := self.name, type := self.type
            flavor := self.flavor, user := self.user_id
            project := self.project_id, is_shared := self.is_shared
            configuration := cfg, created := self.created
            updated := self.updated } := by
  simp only [StackComponentSchema.to_model, h,
    decodeConfiguration_encodeConfiguration]

theorem to_model_decodes_valid_blobs_witness :
    compEx1.configuration = encodeConfiguration (.jobj []) ∧
      compEx1.to_model =
        .ok { id := 21, name := "c1", type := .orchestrator, flavor := "local"
              user := some 7, project := 3, is_shared := false
              configuration := .jobj [], created := 1, updated := 1 } :=
  ⟨rfl, to_model_decodes_valid_blobs compEx1 (.jobj []) rfl⟩

/-- The bytes of `b"!bnVsbA=="`: not base64 (9 bytes, `!` outside the
alphabet), yet CPython's lenient b64decode skips the `!` and decodes
`bnVsbA==` to `b"null"`. -/
def badBlob : List Nat := [33, 98, 110, 86, 115, 98, 65, 61, 61]

theorem to_model_lenient_counterexample :
    specStrictBase64 badBlob = false ∧
      ({ compEx1 with configuration := badBlob } : StackComponentSchema).to_model =
        .ok { id := 21, name := "c1", type := .orchestrator, flavor := "local"
              user := some 7, project := 3, is_shared := false
              configuration := .jnull, created := 1, updated := 1 } := by
  refine ⟨rfl, ?_⟩
  have h1 : b64decode badBlob = .ok (utf8Encode (String.toList "null")) := rfl
  have h2 : utf8Decode (utf8Encode (String.toList "null")) =
      some (String.toList "null") := utf8Decode_encode_ascii _ (by decide)
  have hdec : decodeConfiguration badBlob = .ok .jnull := by
    simp only [decodeConfiguration, h1, h2]
    rfl
  simp only [StackComponentSchema.to_model, hdec]
  rfl

/-- C7: created is preserved and updated re-stamped to now by the update
operations of Project, User, Team, Role and Stack — but NOT by
StackComponentSchema.from_update_model, which takes no clock and never
touches updated: the component row keeps its stale updated value after a
successful update. -/
theorem update_timestamp_restamp :
    (∀ (now : DateTime) (self : ProjectSchema) (m : ProjectModel),
      (ProjectSchema.from_update_model now self m).created = self.created ∧
      (ProjectSchema.from_update_model now self m).updated = now) ∧
    (∀ (now : DateTime) (hp hat : Option String) (self : UserSchema) (m : UserModel),
      (UserSchema.from_update_model now hp hat self m).created = self.created ∧
      (UserSchema.from_update_model now hp hat self m).updated = now) ∧
    (∀ (now : DateTime) (self : TeamSchema) (m : TeamModel),
      (TeamSchema.from_update_model now self m).created = self.created ∧
      (TeamSchema.from_update_model now self m).updated = now) ∧
    (∀ (now : DateTime) (self : RoleSchema) (m : RoleModel),
      (RoleSchema.from_update_model now self m).created = self.created ∧
      (RoleSchema.from_update_model now self m).updated = now) ∧
    (∀ (now : DateTime) (self : StackSchema) (assoc : List UUID)
        (su : StackUpdateModel) (components : List StackComponentSchema)
        (s2 : StackSchema) (a2 : List UUID),
      StackSchema.update now self assoc su components = .ok (s2, a2) →
      s2.created = self.created ∧ s2.updated = now) ∧
    (∀ (self : StackComponentSchema) (c : ComponentModel),
      (StackComponentSchema.from_update_model self c).created = self.created ∧
      (StackComponentSchema.from_update_model self c).updated = self.updated) := by
  refine ⟨fun now self m => ⟨rfl, rfl⟩, fun now hp hat self m => ⟨rfl, rfl⟩,
    fun now self m => ⟨rfl, rfl⟩, fun now self m => ⟨rfl, rfl⟩,
    fun now self assoc su components s2 a2 h => ?_, fun self c => ⟨rfl, rfl⟩⟩
  rw [StackSchema.update] at h
  split at h
  · split at h
    · simp only [Except.ok.injEq, Prod.mk.injEq] at h
      obtain ⟨h1, h2⟩ := h
      subst h1
      exact ⟨rfl, rfl⟩
    · exact absurd h (by simp)
  · exact absurd h (by simp)

theorem update_timestamp_restamp_witness :
    StackSchema.update 9 stackEx [] su0 [] =
        .ok ({ stackEx with updated := 9 }, []) ∧
      ({ stackEx with updated := 9 } : StackSchema).created = stackEx.created ∧
      ({ stackEx with updated := 9 } : StackSchema).updated = 9 :=
  ⟨rfl, update_timestamp_restamp.2.2.2.2.1 9 stackEx [] su0 [] _ [] rfl⟩

/-- C8: a successful partial stack update leaves id, created, project_id
and user_id unchanged, keeps every unset scalar, and keeps the association
when components was unset; a component update touches only name, is_shared
and configuration, leaving id, type, flavor, the two references and both
timestamps unchanged. -/
theorem update_frame (now : DateTime) (self : StackSchema) (assoc : List UUID)
    (su : StackUpdateModel) (components : List StackComponentSchema)
    (s2 : StackSchema) (a2 : List UUID)
    (h : StackSchema.update now self assoc su components = .ok (s2, a2)) :
    (s2.id = self.id ∧ s2.created = self.created ∧
      s2.project_id = self.project_id ∧ s2.user_id = self.user_id) ∧
    (su.name = none → s2.name = self.name) ∧
    (su.is_shared = none → s2.is_shared = self.is_shared) ∧
    (su.components = none → a2 = assoc) ∧
    (∀ (c : StackComponentSchema) (m : ComponentModel),
      (c.from_update_model m).id = c.id ∧
      (c.from_update_model m).type = c.type ∧
      (c.from_update_model m).flavor = c.flavor ∧
      (c.from_update_model m).project_id = c.project_id ∧
      (c.from_update_model m).user_id = c.user_id ∧
      (c.from_update_model m).created = c.created ∧
      (c.from_update_model m).updated = c.updated) := by
  rw [StackSchema.update] at h
  split at h
  · split at h
    · simp only [Except.ok.injEq, Prod.mk.injEq] at h
      obtain ⟨h1, h2⟩ := h
      subst h1
      subst h2
      refine ⟨⟨rfl, rfl, rfl, rfl⟩, fun hn => ?_, fun hsh => ?_, fun hc => ?_,
        fun c m => ⟨rfl, rfl, rfl, rfl, rfl, rfl, rfl⟩⟩
      · rw [hn]
        rfl
      · rw [hsh]
        rfl
      · rw [hc]
    · exact absurd h (by simp)
  · exact absurd h (by simp)

theorem update_frame_witness :
    StackSchema.update 9 stackEx [5] su0 [] =
        .ok ({ stackEx with updated := 9 }, [5]) ∧
      ({ stackEx with updated := 9 } : StackSchema).id = stackEx.id :=
  ⟨rfl, (update_frame 9 stackEx [5] su0 [] _ _ rfl).1.1⟩

/-- The domain model of `compEx1`. -/
def compModelEx1 : ComponentModel :=
  { id := 21, name := "c1", type := .orchestrator, flavor := "local"
    user := some 7, project := 3, is_shared := false
    configuration := .jobj [], created := 1, updated := 1 }

/-- The domain model of `compEx2`. -/
def compModelEx2 : ComponentModel :=
  { compModelEx1 with id := 22, name := "c2" }

theorem compEx1_to_model : compEx1.to_model = .ok compModelEx1 := by
  simp only [StackComponentSchema.to_model,
    show compEx1.configuration = encodeConfiguration (.jobj []) from rfl,
    decodeConfiguration_encodeConfiguration]
  rfl

theorem compEx2_to_model : compEx2.to_model = .ok compModelEx2 := by
  simp only [StackComponentSchema.to_model,
    show compEx2.configuration = encodeConfiguration (.jobj []) from rfl,
    decodeConfiguration_encodeConfiguration]
  rfl

/-- The hydrated model of `stackEx` with both orchestrators associated:
only the later component survives into the dict. -/
def rEx2 : StackResponseModel :=
  { id := 10, name := "stk", user := userEx.to_model
    project := projectEx.to_model, is_shared := false
    components := [(.orchestrator, [compModelEx2])], created := 1, updated := 1 }

theorem stackEx_to_model_both :
    StackSchema.to_model stackEx (some userEx) projectEx [compEx1, compEx2] =
      .ok rEx2 := by
  simp only [StackSchema.to_model, buildComponentsDict, compEx1_to_model,
    compEx2_to_model, dictInsert]
  rfl

/-- C9 (amended): the components mapping built by StackSchema.to_model
holds, for each component type, exactly the model of the LAST associated
component of that type; an earlier associated component that shares its
type with a later one is absent from the result, so the mapping does not
reflect every committed association row. -/
theorem stack_components_last_wins (self : StackSchema) (u : UserSchema)
    (project : ProjectSchema) (components : List StackComponentSchema)
    (r : StackResponseModel)
    (h : StackSchema.to_model self (some u) project components = .ok r) :
    (∀ t, lastOfType t components = none → lookupType t r.components = none) ∧
    (∀ t c, lastOfType t components = some c →
      ∃ m, c.to_model = .ok m ∧ lookupType t r.components = some [m]) := by
  simp only [StackSchema.to_model] at h
  rcases hb : buildComponentsDict [] components with e | d
  · rw [hb] at h
    exact absurd h (by simp)
  · simp only [hb, Except.ok.injEq] at h
    have hr : r.components = d := by
      rw [← h]
    constructor
    · intro t ht
      rw [hr, (buildComponentsDict_lookup t components [] d hb).1 ht]
      rfl
    · intro t c hc
      obtain ⟨m, hm, hl⟩ := (buildComponentsDict_lookup t components [] d hb).2 c hc
      exact ⟨m, hm, by rw [hr, hl]⟩

theorem stack_components_last_wins_witness :
    StackSchema.to_model stackEx (some userEx) projectEx [compEx1, compEx2] =
        .ok rEx2 ∧
      lastOfType .orchestrator [compEx1, compEx2] = some compEx2 ∧
      ∃ m, compEx2.to_model = .ok m ∧
        lookupType .orchestrator rEx2.components = some [m] :=
  ⟨stackEx_to_model_both, rfl,
    (stack_components_last_wins stackEx userEx projectEx [compEx1, compEx2] rEx2
      stackEx_to_model_both).2 .orchestrator compEx2 rfl⟩

theorem stack_components_shadowing_counterexample :
    ([compEx1, compEx2] : List StackComponentSchema).length = 2 ∧
      StackSchema.to_model stackEx (some userEx) projectEx [compEx1, compEx2] =
        .ok rEx2 ∧
      rEx2.components.length = 1 ∧
      lookupType .orchestrator rEx2.components = some [compModelEx2] :=
  ⟨rfl, stackEx_to_model_both, rfl, rfl⟩

/-- C10: the stack's user foreign key is nullable with SET NULL, so a stack
whose owner is deleted survives with user_id null; StackSchema.to_model
then resolves self.user to None and its unconditional dereference raises
AttributeError — the surviving stack cannot be converted to a domain
model. -/
theorem stack_to_model_after_owner_deletion (db : Database) (uid : UUID)
    (s : StackSchema) (hs : s ∈ db.stackRows) (h : s.user_id = some uid) :
    { s with user_id := none } ∈ (deleteUser db uid).stackRows ∧
    ∀ (project : ProjectSchema) (components : List StackComponentSchema),
      StackSchema.to_model { s with user_id := none }
        (resolveUser (deleteUser db uid) ({ s with user_id := none }).user_id)
        project components = .error .attributeError := by
  constructor
  · have h2 := applyOnDelete_setNull_mem (fun s : StackSchema => s.user_id)
      (fun s => { s with user_id := none }) uid db.stackRows s hs
    simpa [h, deleteUser, stack_user_ondelete] using h2
  · intro project components
    rfl

theorem stack_to_model_after_owner_deletion_witness :
    stackEx ∈ dbEx.stackRows ∧ stackEx.user_id = some 7 ∧
      { stackEx with user_id := none } ∈ (deleteUser dbEx 7).stackRows ∧
      StackSchema.to_model { stackEx with user_id := none }
        (resolveUser (deleteUser dbEx 7) ({ stackEx with user_id := none }).user_id)
        projectEx [] = .error .attributeError :=
  ⟨by decide, rfl,
    (stack_to_model_after_owner_deletion dbEx 7 stackEx (by decide) rfl).1,
    (stack_to_model_after_owner_deletion dbEx 7 stackEx (by decide) rfl).2
      projectEx []⟩

end ZenML
